import Mathlib

/-!
# Verification of the upsert engine of `senti-vol/common.py`

This file is a shallow embedding of the core upsert pipeline of the
repository (`src/senti-vol/common.py`, functions `_clean_df_drop_nulls`
and `upsert_to_bq`) together with theorems settling the frozen claims
about it.

Modelling conventions, once and for all:

* A pandas cell value is a `Value`.  The distinct Python null markers
  (`None`, `float('nan')`, `pd.NaT`, `pd.NA`) are conflated into
  `Value.vnull`: every operation of the source treats them alike
  (`dropna`, `pd.isna`, the `x is None or (isinstance(x, float) and
  np.isnan(x))` guards).
* Floats carry no arithmetic in this code path (they are only parsed,
  stored, and compared), so a finite float is modelled as the exact
  decimal `DecNum` (value `num / 10 ^ exp`).  No claim touches float
  rounding.
* Instants are epoch seconds (`Value.vtimestamp : Int`), calendar dates
  are epoch days (`Value.vdate : Int`).
* The `ingested_at` stamp that the source writes at line 135
  (`datetime.utcnow().replace(tzinfo=timezone.utc).isoformat()`) is an
  ISO-8601 UTC string denoting the instant `now`; every consumer in the
  pipeline (the `*_at` parsing skips `ingested_at`; the TIMESTAMP
  coercion and the `SAFE_CAST(... AS TIMESTAMP)` of the merge ranking
  parse it back to the same instant; the numeric coercions fail to parse
  it) reads it as that instant, so the embedding carries the instant
  `Value.vtimestamp now` directly.
* A DataFrame is a column-name list plus rows; a row is an association
  list from column name to `Value`, a missing entry reads as null.
-/

/-- A structured (JSON-serializable) value, the `dict`/`list` payloads
that flow through the `raw` column.  Arrays and objects are encoded as
cons chains (`jarrCons v rest`, `jobjCons k v rest`) rather than nested
`List`s so that equality is derivable and recursion stays structural. -/
inductive JValue where
  | jnull
  | jbool (b : Bool)
  | jint (n : Int)
  | jstr (s : String)
  | jarrNil
  | jarrCons (v : JValue) (rest : JValue)
  | jobjNil
  | jobjCons (k : String) (v : JValue) (rest : JValue)
deriving DecidableEq, Repr

/-- An exact decimal number `num / 10 ^ exp`; the model of a finite
pandas float / parsed numeric. -/
structure DecNum where
  num : Int
  exp : Nat
deriving DecidableEq, Repr

/-- Whether the decimal is an integer, i.e. whether
`astype("Int64")` can cast it without loss. -/
def DecNum.isWhole (d : DecNum) : Bool := d.num % ((10 : Int) ^ d.exp) == 0

/-- The integer value of a whole `DecNum`. -/
def DecNum.toIntVal (d : DecNum) : Int := d.num / ((10 : Int) ^ d.exp)

/-- Whether the nullable-integer cast `astype("Int64")` accepts the
finite decimal: it must be an integer and fit in a signed 64-bit
integer (the cast round-trips the value through `int64` and raises
`TypeError` when it does not survive). -/
def DecNum.int64Castable (d : DecNum) : Bool :=
  d.isWhole && decide ((-(2 ^ 63) : Int) ≤ d.toIntVal) && decide (d.toIntVal ≤ 2 ^ 63 - 1)

/-- The outcome of the `pd.to_numeric(..., errors="coerce")` read of a
cell: NaN (an unparsable value or the named `nan` forms — pandas stores
it as a null), a signed infinity (the named `inf`/`infinity` forms), or
a finite number, kept as an exact decimal. -/
inductive NumParse where
  | nan
  | inf (neg : Bool)
  | fin (d : DecNum)
deriving DecidableEq, Repr

/-- A cell value of a batch: the value domain of §3 of the spec
(null, boolean, integer, float, string, instant, date,
sequence-of-string, structured).  A float64 is either a finite number,
kept as an exact decimal, or a signed infinity (`vinf`); the remaining
float64 inhabitant, NaN, is identified with null throughout, as pandas
nulls and BigQuery loads treat it. -/
inductive Value where
  | vnull
  | vbool (b : Bool)
  | vint (n : Int)
  | vfloat (d : DecNum)
  | vinf (neg : Bool)
  | vstr (s : String)
  | vtimestamp (t : Int)
  | vdate (d : Int)
  | vlist (xs : List String)
  | vjson (j : JValue)
deriving DecidableEq, Repr

/-- Python `str.strip()`-style whitespace. -/
def isSpaceChar (c : Char) : Bool :=
  c = ' ' || c = '\t' || c = '\n' || c = '\r' || c = '\x0b' || c = '\x0c'

/-- ASCII upper-casing, the model of Python `str.upper()` on the
schema type/mode names that occur here. -/
def charUpper (c : Char) : Char :=
  if 'a' ≤ c ∧ c ≤ 'z' then Char.ofNat (c.toNat - 32) else c

/-- `String.toUpper` of the source (`fld.field_type.upper()`),
implemented over the char list so that it evaluates by `decide`. -/
def upperAscii (s : String) : String := ⟨s.toList.map charUpper⟩

/-- `s.endswith(suffix)` of Python, over char lists. -/
def strEndsWith (s suffix : String) : Bool :=
  let l := s.toList
  let m := suffix.toList
  l.drop (l.length - m.length) == m

/-- JSON string escaping (quotes and backslashes; the claims never
inspect the escaped text of a control character). -/
def jsonEscape (s : String) : String :=
  ⟨s.toList.foldr (fun c acc =>
    if c = '"' || c = '\\' then '\\' :: c :: acc else c :: acc) []⟩

mutual

/-- `json.dumps(x, ensure_ascii=False)` on a structured value. -/
def jsonDumps : JValue → String
  | .jnull => "null"
  | .jbool true => "true"
  | .jbool false => "false"
  | .jint n => toString n
  | .jstr s => "\"" ++ jsonEscape s ++ "\""
  | .jarrNil => "[]"
  | .jarrCons v rest => "[" ++ jsonDumps v ++ jsonDumpsArrTail rest ++ "]"
  | .jobjNil => "\x7b\x7d"
  | .jobjCons k v rest =>
    "\x7b\"" ++ jsonEscape k ++ "\":" ++ jsonDumps v ++ jsonDumpsObjTail rest ++ "\x7d"

/-- The remaining elements of an array, each preceded by a comma. -/
def jsonDumpsArrTail : JValue → String
  | .jarrCons v rest => "," ++ jsonDumps v ++ jsonDumpsArrTail rest
  | _ => ""

/-- The remaining fields of an object, each preceded by a comma. -/
def jsonDumpsObjTail : JValue → String
  | .jobjCons k v rest => ",\"" ++ jsonEscape k ++ "\":" ++ jsonDumps v ++ jsonDumpsObjTail rest
  | _ => ""

end

/-- The `JValue` array holding the given strings. -/
def jarrOfStrings : List String → JValue
  | [] => .jarrNil
  | s :: ss => .jarrCons (.jstr s) (jarrOfStrings ss)

/-- `json.dumps` of a Python list of strings (the `tickers`-style
values, which are `list` instances and therefore hit the
`isinstance(x, (dict, list))` branches of the source). -/
def jsonDumpsStrList (xs : List String) : String :=
  jsonDumps (jarrOfStrings xs)

/-- Python `str(x)` on a scalar value.  The exact surface text of
timestamps/dates/floats is abstracted (no claim compares these strings,
they are only required to be strings); integers and booleans follow
Python. -/
def pyStr : Value → String
  | .vnull => "None"
  | .vbool true => "True"
  | .vbool false => "False"
  | .vint n => toString n
  | .vfloat d => toString d.num ++ "e-" ++ toString d.exp
  | .vinf neg => if neg then "-inf" else "inf"
  | .vstr s => s
  | .vtimestamp t => "Timestamp " ++ toString t
  | .vdate d => "Date " ++ toString d
  | .vlist xs => jsonDumpsStrList xs
  | .vjson j => jsonDumps j

/-- The numeric value of a decimal digit, if `c` is one. -/
def digitVal? (c : Char) : Option Nat :=
  if '0' ≤ c ∧ c ≤ '9' then some (c.toNat - '0'.toNat) else none

/-- Splits a leading run of decimal digits off a char list. -/
def takeDigits : List Char → List Nat × List Char
  | [] => ([], [])
  | c :: cs =>
    match digitVal? c with
    | some d => let (ds, rest) := takeDigits cs; (d :: ds, rest)
    | none => ([], c :: cs)

/-- The natural number denoted by a digit list, most significant first. -/
def natOfDigits (ds : List Nat) : Nat := ds.foldl (fun a d => a * 10 + d) 0

/-- The optional exponent tail of a numeric literal: the empty tail is
exponent 0, `e`/`E` followed by an optionally signed digit run is that
exponent, anything else fails the parse. -/
def parseExpPart : List Char → Option Int
  | [] => some 0
  | c :: cs =>
    if c = 'e' ∨ c = 'E' then
      let (esgn, cs1) : Int × List Char :=
        match cs with
        | '-' :: rest => (-1, rest)
        | '+' :: rest => (1, rest)
        | _ => (1, cs)
      let (ed, rest) := takeDigits cs1
      if ed.isEmpty || !rest.isEmpty then none
      else some (esgn * (natOfDigits ed : Int))
    else none

/-- The exact decimal `sgn * m * 10 ^ (e - fracLen)`, normalized into
the `num / 10 ^ exp` form of `DecNum`. -/
def mkDecNum (sgn : Int) (m : Nat) (fracLen : Nat) (e : Int) : DecNum :=
  let p : Int := e - (fracLen : Int)
  if 0 ≤ p then ⟨sgn * (m : Int) * 10 ^ p.toNat, 0⟩
  else ⟨sgn * (m : Int), (-p).toNat⟩

/-- The string-to-number parse performed by `pd.to_numeric` /
`float()` on a string cell: optional surrounding whitespace, optional
sign, then either one of the named specials (`inf`/`infinity`/`nan`,
case-insensitively) or decimal digits with an optional fraction part
and an optional signed exponent.  Anything else is NaN, which
`errors="coerce"` stores as null.  The numeric value is kept as an
exact decimal — the float64 rounding of the parsed value (and with it
overflow of astronomically large literals to infinity) is outside the
module's exact-decimal float abstraction. -/
def parseDecimalStr (s : String) : NumParse :=
  let cs := s.toList.dropWhile isSpaceChar
  let cs := (cs.reverse.dropWhile isSpaceChar).reverse
  let (neg, cs1) : Bool × List Char :=
    match cs with
    | '-' :: rest => (true, rest)
    | '+' :: rest => (false, rest)
    | _ => (false, cs)
  let up := cs1.map charUpper
  if up = "INF".toList ∨ up = "INFINITY".toList then .inf neg
  else if up = "NAN".toList then .nan
  else
    let sgn : Int := if neg then -1 else 1
    let (ip, cs2) := takeDigits cs1
    match cs2 with
    | '.' :: cs3 =>
      let (fp, cs4) := takeDigits cs3
      if ip.isEmpty && fp.isEmpty then .nan
      else
        match parseExpPart cs4 with
        | some e => .fin (mkDecNum sgn (natOfDigits (ip ++ fp)) fp.length e)
        | none => .nan
    | cs2' =>
      if ip.isEmpty then .nan
      else
        match parseExpPart cs2' with
        | some e => .fin (mkDecNum sgn (natOfDigits ip) 0 e)
        | none => .nan

/-- Days from 1970-01-01 of the civil date `(y, m, d)` (the standard
era-based civil-calendar computation). -/
def daysFromCivil (y m d : Int) : Int :=
  let y1 := if m ≤ 2 then y - 1 else y
  let era := y1.fdiv 400
  let yoe := y1 - era * 400
  let mp := (m + 9) % 12
  let doy := (153 * mp + 2).fdiv 5 + d - 1
  let doe := yoe * 365 + yoe.fdiv 4 - yoe.fdiv 100 + doy
  era * 146097 + doe - 719468

/-- Reads exactly `n` decimal digits off the front of a char list. -/
def readDigits : Nat → List Char → Option (Nat × List Char)
  | 0, cs => some (0, cs)
  | n + 1, [] => (fun _ => none) n
  | n + 1, c :: cs => do
    let d ← digitVal? c
    let (rest, cs1) ← readDigits n cs
    return (d * 10 ^ n + rest, cs1)

/-- The ISO-8601 UTC subset of the timestamp-string parse done by
`pd.to_datetime(..., utc=True)` and by BigQuery `SAFE_CAST(s AS
TIMESTAMP)`: `YYYY-MM-DD`, optionally followed by `THH:MM:SS` (or a
space separator) and an optional `Z` / `+00:00` zone.  Fractional
seconds, offsets other than UTC and the many looser pandas formats are
outside the value domain the claims exercise and parse to `none`. -/
def parseIsoStr (s : String) : Option Int := do
  let cs := s.toList
  let (y, cs) ← readDigits 4 cs
  let cs ← match cs with | '-' :: r => some r | _ => none
  let (mo, cs) ← readDigits 2 cs
  let cs ← match cs with | '-' :: r => some r | _ => none
  let (d, cs) ← readDigits 2 cs
  if !(1 ≤ mo && mo ≤ 12 && 1 ≤ d && d ≤ 31) then none
  else
    let days := daysFromCivil (y : Int) (mo : Int) (d : Int)
    match cs with
    | [] => some (days * 86400)
    | sep :: cs1 =>
      if !(sep = 'T' || sep = ' ') then none
      else do
        let (h, cs2) ← readDigits 2 cs1
        let cs3 ← match cs2 with | ':' :: r => some r | _ => none
        let (mi, cs4) ← readDigits 2 cs3
        let cs5 ← match cs4 with | ':' :: r => some r | _ => none
        let (se, cs6) ← readDigits 2 cs5
        if !(h ≤ 23 && mi ≤ 59 && se ≤ 59) then none
        else
          match cs6 with
          | [] => some (days * 86400 + (h : Int) * 3600 + (mi : Int) * 60 + (se : Int))
          | ['Z'] => some (days * 86400 + (h : Int) * 3600 + (mi : Int) * 60 + (se : Int))
          | ['+', '0', '0', ':', '0', '0'] =>
            some (days * 86400 + (h : Int) * 3600 + (mi : Int) * 60 + (se : Int))
          | _ => none

/-- The numeric interpretation of a cell performed by
`pd.to_numeric(col, errors="coerce")`: numbers and booleans pass,
numeric strings parse, everything else (None/NaN, timestamps and dates
held in object columns, lists, dicts) coerces to NaN, i.e. `none`.
(`to_numeric` over a datetime64-typed column would instead yield epoch
nanoseconds; the only timestamp-valued column the claims drive into a
numeric coercion is the string-typed `ingested_at` stamp, which is
excluded from the datetime64 normalization at line 157 of the source
and coerces to NaN — which is what `none` models.) -/
def parseNumeric : Value → NumParse
  | .vint n => .fin ⟨n, 0⟩
  | .vfloat d => .fin d
  | .vinf neg => .inf neg
  | .vbool b => .fin ⟨if b then 1 else 0, 0⟩
  | .vstr s => parseDecimalStr s
  | _ => .nan

/-- The instant interpretation of a cell performed by
`pd.to_datetime(..., utc=True, errors="coerce")`: instants pass, dates
are midnight, ISO strings parse, integers and floats are epoch
nanoseconds (truncated to seconds here — sub-second precision never
matters to a claim), everything else is NaT, i.e. `none`. -/
def toInstant? : Value → Option Int
  | .vtimestamp t => some t
  | .vdate d => some (d * 86400)
  | .vstr s => parseIsoStr s
  | .vint n => some (n.fdiv 1000000000)
  | .vfloat d => some (d.num.fdiv ((10 : Int) ^ d.exp * 1000000000))
  | _ => none

/-- BigQuery `SAFE_CAST(x AS TIMESTAMP)` on a staged value, as used by
the `ROW_NUMBER` ranking of the merge: timestamps pass, dates are
midnight, strings parse as ISO, anything else is NULL.  (An INT64
column under this cast would actually make the whole merge statement
fail to compile in BigQuery; no claim ranks by an integer column — the
nulled `ingested_at` of claim C10 reaches this cast only as NULL.) -/
def safeCastTs : Value → Option Int
  | .vtimestamp t => some t
  | .vdate d => some (d * 86400)
  | .vstr s => parseIsoStr s
  | _ => none

/-- An error raised by the Python code, by exception class.
`valueError` models `ValueError`, `runtimeError` models `RuntimeError`,
`typeError` models `TypeError` (raised by pandas `astype("Int64")` and
by the numpy array-truthiness check), `keyError` models the pandas
`KeyError` of `dropna(subset=...)` on missing columns (it carries the
missing column names). -/
inductive PyError where
  | valueError (msg : String)
  | runtimeError (msg : String)
  | typeError (msg : String)
  | keyError (cols : List String)
deriving DecidableEq, Repr

deriving instance DecidableEq for Except

/-- A row: an association list from column name to value.  A column
with no entry reads as null (`getCell`), matching a pandas row that is
NaN in that column. -/
abbrev Row := List (String × Value)

/-- Whether the row has an explicit entry for column `c`. -/
def hasEntry : Row → String → Bool
  | [], _ => false
  | (c1, _) :: r, c => c1 = c || hasEntry r c

/-- The value of row `r` in column `c` (null when absent). -/
def getCell : Row → String → Value
  | [], _ => .vnull
  | (c1, v) :: r, c => if c1 = c then v else getCell r c

/-- Assigns `v` to column `c` of the row, replacing the first existing
entry or appending a new one — the row-level effect of a pandas column
assignment `df[c] = ...`. -/
def updateCell : Row → String → Value → Row
  | [], c, v => [(c, v)]
  | (c1, v1) :: r, c, v => if c1 = c then (c, v) :: r else (c1, v1) :: updateCell r c v

/-- A DataFrame: an ordered column list and the rows. -/
structure DF where
  cols : List String
  rows : List Row
deriving DecidableEq, Repr

/-- `df.empty` of pandas: true when either axis has length zero. -/
def DF.isEmptyDF (df : DF) : Bool := df.rows.isEmpty || df.cols.isEmpty

/-- The column assignment `df[c] = df[c].apply(f)` of pandas: every
row's `c` cell is replaced by `f` of its old value (entries are created
where a row lacked one, as the pandas column always has a cell per
row).  Used only where the source guards `c in df.columns`. -/
def mapCol (df : DF) (c : String) (f : Value → Value) : DF :=
  ⟨df.cols, df.rows.map (fun r => updateCell r c (f (getCell r c)))⟩

/-- The whole-column assignment `df[c] = v` of pandas with a scalar
right-hand side: every row gets the same value; the column is appended
to the column list when new (pandas adds new columns at the end). -/
def setCol (df : DF) (c : String) (v : Value) : DF :=
  ⟨if c ∈ df.cols then df.cols else df.cols ++ [c],
   df.rows.map (fun r => updateCell r c v)⟩

/-- The blank-to-null cell map of `_clean_df_drop_nulls` (line 61):
a string that strips to empty becomes null, every other value is left
alone.  The source applies it only to object-dtype columns, but only
string cells can be affected and strings live only in object columns,
so applying it to every cell is extensionally the same map. -/
def blankCell : Value → Value
  | .vstr s => if s.toList.all isSpaceChar then .vnull else .vstr s
  | v => v

/-- `blankCell` over every entry of a row. -/
def blankRow (r : Row) : Row := r.map (fun p => (p.1, blankCell p.2))

/-- `blankCell` over the whole frame. -/
def blankToNullDF (df : DF) : DF := ⟨df.cols, df.rows.map blankRow⟩

/-- `df.dropna(how="all")`: keeps the rows that are non-null in at
least one column. -/
def dropAllNullRows (df : DF) : DF :=
  ⟨df.cols, df.rows.filter (fun r => df.cols.any (fun c => getCell r c != .vnull))⟩

/-- `df.dropna(subset=req, how="any")` after the subset exists: keeps
the rows that are non-null in every `req` column. -/
def dropNullSubset (df : DF) (req : List String) : DF :=
  ⟨df.cols, df.rows.filter (fun r => req.all (fun k => getCell r k != .vnull))⟩

/-- `_clean_df_drop_nulls(df, required_non_null)` (common.py lines
54-70).  The first component is the state of the *caller's* DataFrame
object after the call: the blank-to-null pass at line 61 mutates the
argument in place, while both `dropna` calls return copies.  The second
component is the returned frame, or the pandas `KeyError` that
`dropna(subset=...)` raises when a required column is absent. -/
def clean_df_drop_nulls (df : DF) (required : List String) : DF × Except PyError DF :=
  if df.isEmptyDF then (df, .ok df)
  else
    let dfB := blankToNullDF df
    let dfA := dropAllNullRows dfB
    if required.isEmpty then (dfB, .ok dfA)
    else
      let missing := required.filter (fun k => decide (k ∉ df.cols))
      if missing.isEmpty then (dfB, .ok (dropNullSubset dfA required))
      else (dfB, .error (.keyError missing))

/-- The `norm_tickers` lambda (upsert_to_bq lines 139-144): lists are
stringified element-wise (identity here, the elements are already
strings), null becomes the empty list, a scalar becomes a one-element
list. -/
def norm_tickers : Value → Value
  | .vlist xs => .vlist xs
  | .vnull => .vlist []
  | v => .vlist [pyStr v]

/-- The `to_json_text` lambda (upsert_to_bq lines 148-153): dict/list
values are serialized to JSON text, null stays null, strings pass
through, any other scalar is `json.dumps`-serialized.  (`json.dumps`
on a raw Timestamp/date would raise in Python; such values never occur
in the `raw` column of this pipeline — `raw` always holds the provider
payload dict or its serialized text — and are modelled by their string
form to keep the map total.) -/
def to_json_text : Value → Value
  | .vjson j => .vstr (jsonDumps j)
  | .vlist xs => .vstr (jsonDumpsStrList xs)
  | .vnull => .vnull
  | .vstr s => .vstr s
  | v => .vstr (pyStr v)

/-- The timestamp normalization applied to every `*_at` column other
than `ingested_at` (upsert_to_bq lines 157-159), and the
TIMESTAMP/DATETIME coercion branch (lines 210-212):
`pd.to_datetime(col, utc=True, errors="coerce")` — an instant where the
value parses, null otherwise. -/
def coerce_ts (v : Value) : Value :=
  match toInstant? v with
  | some t => .vtimestamp t
  | none => .vnull

/-- The FLOAT64/NUMERIC/BIGNUMERIC/DOUBLE coercion branch (lines
205-207): `pd.to_numeric(col, errors="coerce").astype("float64")` — a
finite float or a signed infinity where the value parses, null
otherwise; never raises. -/
def coerce_float (v : Value) : Value :=
  match parseNumeric v with
  | .fin d => .vfloat d
  | .inf neg => .vinf neg
  | .nan => .vnull

/-- Scalar `pd.isna(v)` as used by the `to_date` helper (line 217).
On a list value numpy evaluates the truthiness of a boolean array:
a one-element array converts, any other length raises the ambiguity
`ValueError`. -/
def isna_scalar : Value → Except PyError Bool
  | .vnull => .ok true
  | .vlist xs =>
    if xs.length == 1 then .ok false
    else .error (.valueError "The truth value of an array with more than one element is ambiguous. Use a.any or a.all")
  | _ => .ok false

/-- The DATE coercion branch helper `to_date` (lines 216-222): null
stays null, otherwise `pd.to_datetime(v).date()` under a `try` that
degrades any parse failure to null.  (A one-element list would
actually convert to a one-element *array* of dates; the claims exclude
sequence values from DATE columns, and the cell is modelled as null —
the unparsable outcome — there.) -/
def to_date (v : Value) : Except PyError Value :=
  match isna_scalar v with
  | .error e => .error e
  | .ok true => .ok .vnull
  | .ok false =>
    match toInstant? v with
    | some t => .ok (.vdate (t.fdiv 86400))
    | none => .ok .vnull

/-- The `ensure_list` lambda of the REPEATED branch (lines 190-195):
same body as `norm_tickers`. -/
def ensure_list : Value → Value
  | .vlist xs => .vlist xs
  | .vnull => .vlist []
  | v => .vlist [pyStr v]

/-- The `ensure_string` lambda of the STRING/JSON branch (lines
228-235): null stays null, strings pass, dict/list values are
serialized to JSON text, anything else is `str(x)`. -/
def ensure_string : Value → Value
  | .vnull => .vnull
  | .vstr s => .vstr s
  | .vjson j => .vstr (jsonDumps j)
  | .vlist xs => .vstr (jsonDumpsStrList xs)
  | v => .vstr (pyStr v)

/-- A field of the target table's schema, as the source reads it:
`field_type` and `mode` are the raw strings of the warehouse client
(`fld.field_type`, `fld.mode`), upper-cased at use sites. -/
structure SchemaField where
  name : String
  field_type : String
  mode : Option String
deriving DecidableEq, Repr

/-- `fld.mode.upper() if fld.mode else "NULLABLE"` (line 184): a falsy
mode (absent or empty) reads as NULLABLE. -/
def modeOf (fld : SchemaField) : String :=
  match fld.mode with
  | some m => if m.isEmpty then "NULLABLE" else upperAscii m
  | none => "NULLABLE"

/-- The per-cell semantics of the coercion dispatch of `upsert_to_bq`
(lines 181-241) for one schema field, in the source's branch order:
REPEATED, INT64, float-like, TIMESTAMP/DATETIME, DATE, STRING/JSON,
fallback.  The INT64 branch models
`pd.to_numeric(col, errors="coerce").astype("Int64")`: an unparsable
value nulls (NaN becomes `pd.NA`), a whole number inside the `int64`
range casts, and anything else the cast would not round-trip — a
number with a nonzero fractional part, a whole number outside the
`int64` range, or an infinity — makes `astype` raise
`TypeError: cannot safely cast non-equivalent float64 to int64`
(pandas refuses the lossy cast; the raise is per column in pandas and
surfaces iff some cell raises here, which is observably the same).
The fallback branch (lines 239-241) only decodes `bytes` values,
which do not occur in the batch value domain of §3 of the spec, so it
is the identity. -/
def coerce1 (fld : SchemaField) (v : Value) : Except PyError Value :=
  let ftype := upperAscii fld.field_type
  if modeOf fld = "REPEATED" then .ok (ensure_list v)
  else if ftype = "INT64" then
    match parseNumeric v with
    | .nan => .ok .vnull
    | .inf _ => .error (.typeError "cannot safely cast non-equivalent float64 to int64")
    | .fin d =>
      if d.int64Castable then .ok (.vint d.toIntVal)
      else .error (.typeError "cannot safely cast non-equivalent float64 to int64")
  else if ftype = "FLOAT64" ∨ ftype = "NUMERIC" ∨ ftype = "BIGNUMERIC" ∨ ftype = "DOUBLE" then
    .ok (coerce_float v)
  else if ftype = "TIMESTAMP" ∨ ftype = "DATETIME" then .ok (coerce_ts v)
  else if ftype = "DATE" then to_date v
  else if ftype = "STRING" ∨ ftype = "JSON" then .ok (ensure_string v)
  else .ok v

/-- Whether `w` is a valid instance of the field's declared logical
type — the claim's "valid instance of t", written from the spec's
type descriptions (§4.2): REPEATED mode expects a string sequence,
INT64 an integer, the float family a float, TIMESTAMP/DATETIME an
instant, DATE a date, STRING/JSON a string; any other declared type
places no constraint.  Written with the named shape discriminators
just below. -/
def isListV : Value → Bool
  | .vlist _ => true
  | _ => false

def isIntV : Value → Bool
  | .vint _ => true
  | _ => false

def isFloatV : Value → Bool
  | .vfloat _ => true
  | .vinf _ => true
  | _ => false

def isTimestampV : Value → Bool
  | .vtimestamp _ => true
  | _ => false

def isDateV : Value → Bool
  | .vdate _ => true
  | _ => false

def isStrV : Value → Bool
  | .vstr _ => true
  | _ => false

def validFor (fld : SchemaField) (w : Value) : Bool :=
  let ftype := upperAscii fld.field_type
  if modeOf fld = "REPEATED" then isListV w
  else if ftype = "INT64" then isIntV w
  else if ftype = "FLOAT64" ∨ ftype = "NUMERIC" ∨ ftype = "BIGNUMERIC" ∨ ftype = "DOUBLE" then
    isFloatV w
  else if ftype = "TIMESTAMP" ∨ ftype = "DATETIME" then isTimestampV w
  else if ftype = "DATE" then isDateV w
  else if ftype = "STRING" ∨ ftype = "JSON" then isStrV w
  else true

/-- Applies a fallible cell map to column `c` of each row in turn,
stopping at the first raise. -/
def mapRowsE (c : String) (f : Value → Except PyError Value) : List Row → Except PyError (List Row)
  | [] => .ok []
  | r :: rs =>
    match f (getCell r c) with
    | .error e => .error e
    | .ok v =>
      match mapRowsE c f rs with
      | .error e => .error e
      | .ok rest => .ok (updateCell r c v :: rest)

/-- Applies a fallible cell map to one column of every row. -/
def mapColE (df : DF) (c : String) (f : Value → Except PyError Value) : Except PyError DF :=
  match mapRowsE c f df.rows with
  | .error e => .error e
  | .ok rows => .ok ⟨df.cols, rows⟩

/-- One iteration of the coercion loop (lines 181-241): a schema field
whose name is not a batch column is skipped, otherwise its branch is
applied to the column. -/
def coerceField (df : DF) (fld : SchemaField) : Except PyError DF :=
  if fld.name ∈ df.cols then mapColE df fld.name (coerce1 fld) else .ok df

/-- The whole coercion pass: the loop over `target_schema`, stopping
at the first raise. -/
def coerceDF (target_schema : List SchemaField) (df : DF) : Except PyError DF :=
  match target_schema with
  | [] => .ok df
  | fld :: rest =>
    match coerceField df fld with
    | .error e => .error e
    | .ok df1 => coerceDF rest df1

/-- The `rn_order` choice of the merge statement (lines 268-280): rank
by `ingested_at` when it is a usable column, else `published_at`, else
`created_at`, else order by the key columns themselves (which are all
equal inside a partition — a pure tie). -/
inductive OrderSpec where
  | byCol (c : String)
  | byKeys
deriving DecidableEq, Repr

/-- Chooses the recency order from the usable columns, with the
source's priority. -/
def chooseOrder (usable : List String) : OrderSpec :=
  if "ingested_at" ∈ usable then .byCol "ingested_at"
  else if "published_at" ∈ usable then .byCol "published_at"
  else if "created_at" ∈ usable then .byCol "created_at"
  else .byKeys

/-- The ranking key of a staged row:
`SAFE_CAST(col AS TIMESTAMP)` under `ORDER BY ... DESC` (NULL ranks
last), or no key at all in the key-column fallback (every row of a
partition ties). -/
def recKey (ord : OrderSpec) (r : Row) : Option Int :=
  match ord with
  | .byCol c => safeCastTs (getCell r c)
  | .byKeys => none

/-- Whether ranking key `a` strictly precedes `b` in the descending
order (a later instant wins; a non-null key precedes a null one). -/
def beats (a b : Option Int) : Bool :=
  match a, b with
  | some x, some y => decide (y < x)
  | some _, none => true
  | _, _ => false

/-- The key tuple of a row: the `PARTITION BY` grouping value.  SQL
window partitioning groups NULLs together, so plain value equality is
the grouping equality. -/
def keyTuple (keys : List String) (r : Row) : List Value :=
  keys.map (getCell r)

/-- The distinct elements of a list in order of first appearance. -/
def firstOccurrences (l : List (List Value)) : List (List Value) :=
  l.foldl (fun acc k => if k ∈ acc then acc else acc ++ [k]) []

/-- The rank-1 row of one partition: the row with the maximal ranking
key, earliest staged row winning ties (a deterministic model of
`ROW_NUMBER() ... = 1`; BigQuery leaves ties unspecified, and this
embedding resolves them by staging order). -/
def pickLatest (ord : OrderSpec) : List Row → Option Row
  | [] => none
  | g :: gs => some (gs.foldl (fun best r => if beats (recKey ord r) (recKey ord best) then r else best) g)

/-- The deduplicated merge source: one rank-1 row per key tuple, in
order of first appearance of the key among the staged rows. -/
def dedupRows (keys : List String) (ord : OrderSpec) (rows : List Row) : List Row :=
  (firstOccurrences (rows.map (keyTuple keys))).filterMap
    (fun k => pickLatest ord (rows.filter (fun r => keyTuple keys r == k)))

/-- SQL equality of two cell values under the merge's `ON` clause:
NULL never equals anything (including NULL). -/
def sqlEqV (a b : Value) : Bool :=
  match a, b with
  | .vnull, _ => false
  | _, .vnull => false
  | a, b => a == b

/-- The `ON` clause `T.k1 = S.k1 AND ...` between a target row and a
source row. -/
def rowMatches (keys : List String) (t s : Row) : Bool :=
  keys.all (fun k => sqlEqV (getCell t k) (getCell s k))

/-- `WHEN MATCHED THEN UPDATE SET T.c = S.c` over the non-key usable
columns. -/
def updateNonKeys (nonkeys : List String) (t s : Row) : Row :=
  nonkeys.foldl (fun acc c => updateCell acc c (getCell s c)) t

/-- `WHEN NOT MATCHED THEN INSERT (usable...) VALUES (S....)`: the
inserted target row carries exactly the usable columns (all other
target columns are null, which an absent entry already denotes). -/
def insertRowOf (usable : List String) (s : Row) : Row :=
  usable.map (fun c => (c, getCell s c))

/-- The semantics of the generated MERGE statement (lines 299-323)
against a target table state: every target row matching a source row
is updated on the non-key usable columns (when there are non-key
usable columns — otherwise the statement has no `WHEN MATCHED` clause
and matched rows are untouched), and every source row matching no
target row is inserted.  After deduplication a target row can match at
most one source row with non-null keys (BigQuery errors out on
multiple matches; that situation is unreachable here). -/
def mergeRows (keys usable : List String) (src tgt : List Row) : List Row :=
  let nonkeys := usable.filter (fun c => decide (c ∉ keys))
  let updated :=
    if nonkeys.isEmpty then tgt
    else tgt.map (fun t =>
      match src.find? (fun s => rowMatches keys t s) with
      | some s => updateNonKeys nonkeys t s
      | none => t)
  let inserts := (src.filter (fun s => !tgt.any (fun t => rowMatches keys t s))).map (insertRowOf usable)
  updated ++ inserts

/-- The outcome of one `upsert_to_bq` call, labelled with the spec's
§3 `MergeOutcome` status names: `applied` is the successful-return
path, `skippedEmpty` the two early `return`s on empty input (lines
129-131 and 163-165), `raised e` a raised exception. -/
inductive Status where
  | applied
  | skippedEmpty
  | raised (e : PyError)
deriving DecidableEq, Repr

/-- The inputs of one `upsert_to_bq` call, with the warehouse
abstracted: `targetRows` is the target table's current rows,
`stagingPrev` the staging table's leftover contents from earlier runs,
`fetchSchema` the outcome of `client.get_table(target_table).schema`,
`schema` the caller's optional explicit schema, `key_fields` the key
spec, `now` the instant `datetime.utcnow()` would stamp.  The
`staging_table`/`location` arguments only name warehouse objects and
are not modelled. -/
structure UpsertArgs where
  targetRows : List Row
  stagingPrev : List Row
  fetchSchema : Except String (List SchemaField)
  schema : Option (List SchemaField)
  key_fields : List String
  now : Int
deriving Repr

/-- The observable result of one `upsert_to_bq` call: the state of the
caller's DataFrame object (the source mutates it in place), the
staging table contents, the schema the staging load job was configured
with (`none` when no load happened), the target table contents, and
the status. -/
structure UpsertResult where
  batch : Option DF
  staging : List Row
  loadSchema : Option (List SchemaField)
  target : List Row
  status : Status
deriving Repr

/-- The in-place normalization prefix of `upsert_to_bq` (lines
133-159): stamp `ingested_at` when absent, normalize `tickers`,
serialize `raw`, parse every other `*_at` column to instants.  These
assignments all mutate the caller's DataFrame. -/
def normalizeBatch (now : Int) (df : DF) : DF :=
  let df1 := if "ingested_at" ∈ df.cols then df else setCol df "ingested_at" (.vtimestamp now)
  let df2 := if "tickers" ∈ df1.cols then mapCol df1 "tickers" norm_tickers else df1
  let df3 := if "raw" ∈ df2.cols then mapCol df2 "raw" to_json_text else df2
  ((df3.cols.filter (fun c => strEndsWith c "_at" && c != "ingested_at")).foldl
    (fun d c => mapCol d c coerce_ts) df3)

/-- `usable_cols` (line 259): the batch columns, in batch order, that
exist in the target schema. -/
def usableColsOf (dfCols target_cols : List String) : List String :=
  dfCols.filter (fun c => decide (c ∈ target_cols))

/-- The tail of `upsert_to_bq` from the schema fetch on (lines
171-333), on the already-cleaned frame: fetch the target schema (a
fetch failure is a `RuntimeError` regardless of any explicit schema),
coerce, truncate-load into staging under the explicit schema if one
was given else the fetched one, abort with `RuntimeError` when no
batch column matches the target schema, with `ValueError` when a key
field is missing from it, else rank-deduplicate and merge.  Returns
(staging contents, load schema, target contents, status). -/
def afterClean (a : UpsertArgs) (dfF : DF) :
    List Row × Option (List SchemaField) × List Row × Status :=
  match a.fetchSchema with
  | .error e =>
    (a.stagingPrev, none, a.targetRows,
     .raised (.runtimeError ("Unable to fetch target table schema: " ++ e)))
  | .ok target_schema =>
    match coerceDF target_schema dfF with
    | .error e => (a.stagingPrev, none, a.targetRows, .raised e)
    | .ok dfC =>
      let jobSchema := match a.schema with | some s => s | none => target_schema
      let target_cols := target_schema.map (fun f => f.name)
      let usable := usableColsOf dfC.cols target_cols
      if usable.isEmpty then
        (dfC.rows, some jobSchema, a.targetRows,
         .raised (.runtimeError "No DataFrame columns match target table schema; aborting MERGE."))
      else
        let missing := a.key_fields.filter (fun k => decide (k ∉ target_cols))
        if !missing.isEmpty then
          (dfC.rows, some jobSchema, a.targetRows,
           .raised (.valueError "key_fields not in target table schema"))
        else
          let ord := chooseOrder usable
          let src := dedupRows a.key_fields ord dfC.rows
          (dfC.rows, some jobSchema, mergeRows a.key_fields usable src a.targetRows, .applied)

/-- `upsert_to_bq(target_table, df, schema, key_fields, ...)`
(common.py lines 122-333), end to end: reject an empty key spec, skip
an empty batch, normalize in place, clean and key-filter, skip a batch
that became empty, then run `afterClean`. -/
def upsert_to_bq (a : UpsertArgs) (df? : Option DF) : UpsertResult :=
  if a.key_fields.isEmpty then
    ⟨df?, a.stagingPrev, none, a.targetRows,
     .raised (.valueError "key_fields is required for upsert_to_bq")⟩
  else
    match df? with
    | none => ⟨none, a.stagingPrev, none, a.targetRows, .skippedEmpty⟩
    | some df =>
      if df.isEmptyDF then ⟨some df, a.stagingPrev, none, a.targetRows, .skippedEmpty⟩
      else
        let dfN := normalizeBatch a.now df
        match clean_df_drop_nulls dfN a.key_fields with
        | (dfB, .error e) => ⟨some dfB, a.stagingPrev, none, a.targetRows, .raised e⟩
        | (dfB, .ok dfF) =>
          if dfF.rows.isEmpty then
            ⟨some dfB, a.stagingPrev, none, a.targetRows, .skippedEmpty⟩
          else
            let res := afterClean a dfF
            ⟨some dfB, res.1, res.2.1, res.2.2.1, res.2.2.2⟩

/-! ## Concrete instances used by counterexamples and witnesses -/

/-- A target with a single INT64 key column `id` and no prior rows. -/
def argsIntKey : UpsertArgs :=
  { targetRows := [], stagingPrev := [], fetchSchema := .ok [⟨"id", "INT64", none⟩],
    schema := none, key_fields := ["id"], now := 0 }

/-- A one-row batch whose `id` value is a non-numeric string. -/
def dfIntKey : DF := ⟨["id"], [[("id", .vstr "abc")]]⟩

/-- A target whose schema declares `ingested_at` as INT64 next to a
STRING key. -/
def argsIntStamp : UpsertArgs :=
  { targetRows := [], stagingPrev := [],
    fetchSchema := .ok [⟨"id", "STRING", none⟩, ⟨"ingested_at", "INT64", none⟩],
    schema := none, key_fields := ["id"], now := 0 }

/-- A one-row batch with only the key column (no `ingested_at`). -/
def dfStrOnly : DF := ⟨["id"], [[("id", .vstr "a")]]⟩

/-- A target schema `(id STRING, amount FLOAT64, ingested_at
TIMESTAMP)` with no prior rows, the recency-convergence scenario. -/
def argsRecency : UpsertArgs :=
  { targetRows := [], stagingPrev := [],
    fetchSchema := .ok [⟨"id", "STRING", none⟩, ⟨"amount", "FLOAT64", none⟩,
                        ⟨"ingested_at", "TIMESTAMP", none⟩],
    schema := none, key_fields := ["id"], now := 0 }

/-- Two rows with the same key and different recency instants. -/
def dfRecency : DF :=
  ⟨["id", "amount", "ingested_at"],
   [[("id", .vstr "a"), ("amount", .vstr "12.5"), ("ingested_at", .vtimestamp 100)],
    [("id", .vstr "a"), ("amount", .vstr "13.0"), ("ingested_at", .vtimestamp 200)]]⟩

/-- A target whose schema shares no column with `dfIntKey`'s batch. -/
def argsNoOverlap : UpsertArgs :=
  { targetRows := [[("z", .vstr "q")]], stagingPrev := [],
    fetchSchema := .ok [⟨"z", "STRING", none⟩],
    schema := none, key_fields := ["id"], now := 0 }

/-- A call whose schema fetch fails while an explicit schema is
supplied. -/
def argsFetchFail : UpsertArgs :=
  { targetRows := [[("id", .vstr "a")]], stagingPrev := [[("old", .vint 1)]],
    fetchSchema := .error "404 table not found",
    schema := some [⟨"id", "STRING", none⟩], key_fields := ["id"], now := 0 }

/-- A STRING-keyed target used by several witnesses. -/
def argsStrKey : UpsertArgs :=
  { targetRows := [], stagingPrev := [], fetchSchema := .ok [⟨"id", "STRING", none⟩],
    schema := none, key_fields := ["id"], now := 0 }

/-- A target whose only usable column is the key column, holding one
row that the batch's key matches. -/
def argsKeysOnly : UpsertArgs :=
  { targetRows := [[("id", .vstr "a"), ("x", .vint 1)]], stagingPrev := [],
    fetchSchema := .ok [⟨"id", "STRING", none⟩],
    schema := none, key_fields := ["id"], now := 0 }

/-! ## Basic lemmas about rows and frames -/

@[simp]
theorem getCell_updateCell_self (r : Row) (c : String) (v : Value) :
    getCell (updateCell r c v) c = v := by
  induction r with
  | nil => simp [updateCell, getCell]
  | cons p r ih =>
    by_cases h : p.1 = c
    · simp [updateCell, getCell, h]
    · simp [updateCell, getCell, h, ih]

theorem getCell_updateCell_ne (r : Row) (c c1 : String) (v : Value) (h : c1 ≠ c) :
    getCell (updateCell r c v) c1 = getCell r c1 := by
  induction r with
  | nil => simp [updateCell, getCell, Ne.symm h]
  | cons p r ih =>
    obtain ⟨pc, pv⟩ := p
    by_cases h2 : pc = c
    · subst h2
      simp [updateCell, getCell, Ne.symm h]
    · by_cases h3 : pc = c1 <;> simp [updateCell, getCell, h, h2, h3, ih]

@[simp]
theorem hasEntry_updateCell_self (r : Row) (c : String) (v : Value) :
    hasEntry (updateCell r c v) c = true := by
  induction r with
  | nil => simp [updateCell, hasEntry]
  | cons p r ih =>
    by_cases h : p.1 = c
    · simp [updateCell, hasEntry, h]
    · simp [updateCell, hasEntry, h, ih]

theorem hasEntry_updateCell_of (r : Row) (c c1 : String) (v : Value)
    (h : hasEntry r c1 = true) : hasEntry (updateCell r c v) c1 = true := by
  induction r with
  | nil => simp [hasEntry] at h
  | cons p r ih =>
    by_cases h2 : p.1 = c
    · simp [updateCell, hasEntry, h2]
      simp [hasEntry, h2] at h
      rcases h with h | h
      · left; exact h
      · right; exact h
    · simp [hasEntry, h2] at h ⊢
      rw [updateCell]
      simp [h2, hasEntry]
      rcases h with h | h
      · left; exact h
      · right; exact ih h

theorem updateCell_same_of_hasEntry (r : Row) (c : String)
    (h : hasEntry r c = true) : updateCell r c (getCell r c) = r := by
  induction r with
  | nil => simp [hasEntry] at h
  | cons p r ih =>
    obtain ⟨pc, pv⟩ := p
    by_cases h2 : pc = c
    · subst h2
      simp [updateCell, getCell]
    · simp [hasEntry, h2] at h
      simp [updateCell, getCell, h2, ih h]

theorem updateCell_updateCell (r : Row) (c : String) (v w : Value) :
    updateCell (updateCell r c v) c w = updateCell r c w := by
  induction r with
  | nil => simp [updateCell]
  | cons p r ih =>
    by_cases h : p.1 = c
    · simp [updateCell, h]
    · simp [updateCell, h, ih]

/-! ## Frame-level lemmas -/

@[simp]
theorem mapCol_cols (df : DF) (c : String) (f : Value → Value) :
    (mapCol df c f).cols = df.cols := rfl

@[simp]
theorem mapCol_rows (df : DF) (c : String) (f : Value → Value) :
    (mapCol df c f).rows = df.rows.map (fun r => updateCell r c (f (getCell r c))) := rfl

@[simp]
theorem setCol_rows (df : DF) (c : String) (v : Value) :
    (setCol df c v).rows = df.rows.map (fun r => updateCell r c v) := rfl

theorem setCol_cols_of_not_mem (df : DF) (c : String) (v : Value) (h : c ∉ df.cols) :
    (setCol df c v).cols = df.cols ++ [c] := by
  simp [setCol, h]

theorem foldl_mapCol_cols (L : List String) (F : DF) (f : Value → Value) :
    (L.foldl (fun d c => mapCol d c f) F).cols = F.cols := by
  induction L generalizing F with
  | nil => rfl
  | cons c L ih => simpa using ih (mapCol F c f)

theorem foldl_mapCol_rows (L : List String) (F : DF) (f : Value → Value) :
    (L.foldl (fun d c => mapCol d c f) F).rows =
      F.rows.map (fun r => L.foldl (fun r c => updateCell r c (f (getCell r c))) r) := by
  induction L generalizing F with
  | nil => simp
  | cons c L ih =>
    simp only [List.foldl_cons, ih (mapCol F c f), mapCol_rows, List.map_map]
    rfl

theorem getCell_foldl_updateCell_not_mem (L : List String) (r : Row)
    (f : Value → Value) (c1 : String) (h : c1 ∉ L) :
    getCell (L.foldl (fun r c => updateCell r c (f (getCell r c))) r) c1 = getCell r c1 := by
  induction L generalizing r with
  | nil => rfl
  | cons c L ih =>
    simp only [List.mem_cons, not_or] at h
    simp only [List.foldl_cons]
    rw [ih _ h.2, getCell_updateCell_ne _ _ _ _ h.1]

theorem blankRow_cons (c : String) (v : Value) (r : Row) :
    blankRow ((c, v) :: r) = (c, blankCell v) :: blankRow r := rfl

/-- The caller-visible cell of a blank-normalized row. -/
theorem getCell_blankRow (r : Row) (c : String) :
    getCell (blankRow r) c = blankCell (getCell r c) := by
  induction r with
  | nil => simp [blankRow, getCell, blankCell]
  | cons p r ih =>
    obtain ⟨pc, pv⟩ := p
    simp only [blankRow] at ih ⊢
    by_cases h : pc = c <;> simp [getCell, h, ih]

theorem normalizeBatch_cols (now : Int) (df : DF) :
    (normalizeBatch now df).cols =
      if "ingested_at" ∈ df.cols then df.cols else df.cols ++ ["ingested_at"] := by
  simp only [normalizeBatch, foldl_mapCol_cols]
  by_cases h : "ingested_at" ∈ df.cols
  · simp only [h, if_true]
    split <;> split <;> rfl
  · simp only [h, if_false]
    split <;> split <;> simp [mapCol, setCol, h]

theorem normalizeBatch_rows_length (now : Int) (df : DF) :
    (normalizeBatch now df).rows.length = df.rows.length := by
  simp only [normalizeBatch, foldl_mapCol_rows, List.length_map]
  split <;> split <;> split <;> simp [mapCol, setCol]

theorem not_mem_tsFilter (c : String) (hc4 : strEndsWith c "_at" = false) (cols : List String) :
    c ∉ cols.filter (fun c0 => strEndsWith c0 "_at" && c0 != "ingested_at") := by
  intro hmem
  rw [List.mem_filter] at hmem
  simp [hc4] at hmem

theorem ingested_not_mem_tsFilter (cols : List String) :
    "ingested_at" ∉ cols.filter (fun c0 => strEndsWith c0 "_at" && c0 != "ingested_at") := by
  intro hmem
  rw [List.mem_filter] at hmem
  simp at hmem

/-- Cells of columns not touched by the in-place normalization
(not the stamp, not `tickers`, not `raw`, not a `*_at` column) are
carried through `normalizeBatch` unchanged, row by row. -/
theorem getCell_normalizeBatch_untouched (now : Int) (df : DF) (c : String)
    (hc1 : c ≠ "ingested_at") (hc2 : c ≠ "tickers") (hc3 : c ≠ "raw")
    (hc4 : strEndsWith c "_at" = false)
    (i : Nat) (r r1 : Row) (hr : df.rows[i]? = some r)
    (hr1 : (normalizeBatch now df).rows[i]? = some r1) :
    getCell r1 c = getCell r c := by
  simp only [normalizeBatch, foldl_mapCol_rows] at hr1
  split at hr1 <;> split at hr1 <;> split at hr1 <;>
    (simp only [mapCol_rows, setCol_rows, List.map_map, List.getElem?_map, hr,
       Option.map_some'] at hr1
     cases hr1
     try simp only [Function.comp]
     rw [getCell_foldl_updateCell_not_mem _ _ _ _ (not_mem_tsFilter c hc4 _)]
     try simp [getCell_updateCell_ne, hc1, hc2, hc3])

/-- When the batch lacked an `ingested_at` column, every row of the
normalized batch carries the stamp `now` in `ingested_at`. -/
theorem getCell_normalizeBatch_stamp (now : Int) (df : DF)
    (h : "ingested_at" ∉ df.cols)
    (i : Nat) (r1 : Row) (hr1 : (normalizeBatch now df).rows[i]? = some r1) :
    getCell r1 "ingested_at" = .vtimestamp now := by
  simp only [normalizeBatch, foldl_mapCol_rows, h, if_false] at hr1
  split at hr1 <;> split at hr1 <;>
    (simp only [mapCol_rows, setCol_rows, List.map_map, List.getElem?_map] at hr1
     rcases h2 : df.rows[i]? with _ | r
     · rw [h2] at hr1; simp at hr1
     · rw [h2] at hr1
       simp only [Option.map_some'] at hr1
       cases hr1
       try simp only [Function.comp]
       rw [getCell_foldl_updateCell_not_mem _ _ _ _ (ingested_not_mem_tsFilter _)]
       try simp [getCell_updateCell_ne, getCell_updateCell_self])

/-! ## Pipeline-level lemmas -/

theorem upsert_to_bq_run (a : UpsertArgs) (df dfB dfF : DF)
    (hk : a.key_fields.isEmpty = false) (hne : df.isEmptyDF = false)
    (hclean : clean_df_drop_nulls (normalizeBatch a.now df) a.key_fields = (dfB, .ok dfF))
    (hF : dfF.rows.isEmpty = false) :
    upsert_to_bq a (some df) =
      ⟨some dfB, (afterClean a dfF).1, (afterClean a dfF).2.1,
       (afterClean a dfF).2.2.1, (afterClean a dfF).2.2.2⟩ := by
  simp only [upsert_to_bq, hk, hne, Bool.false_eq_true, if_false, hclean, hF]

theorem afterClean_fetch_err (a : UpsertArgs) (dfF : DF) (e : String)
    (hfetch : a.fetchSchema = .error e) :
    afterClean a dfF =
      (a.stagingPrev, none, a.targetRows,
       .raised (.runtimeError ("Unable to fetch target table schema: " ++ e))) := by
  simp only [afterClean, hfetch]

theorem afterClean_coerce_err (a : UpsertArgs) (dfF : DF) (ts : List SchemaField) (e : PyError)
    (hfetch : a.fetchSchema = .ok ts) (hco : coerceDF ts dfF = .error e) :
    afterClean a dfF = (a.stagingPrev, none, a.targetRows, .raised e) := by
  simp only [afterClean, hfetch, hco]

theorem afterClean_no_usable (a : UpsertArgs) (dfF dfC : DF) (ts : List SchemaField)
    (hfetch : a.fetchSchema = .ok ts) (hco : coerceDF ts dfF = .ok dfC)
    (husable : (usableColsOf dfC.cols (ts.map (fun f => f.name))).isEmpty = true) :
    afterClean a dfF =
      (dfC.rows, some (match a.schema with | some s => s | none => ts), a.targetRows,
       .raised (.runtimeError "No DataFrame columns match target table schema; aborting MERGE.")) := by
  simp only [afterClean, hfetch, hco, husable, if_true]

theorem afterClean_applied (a : UpsertArgs) (dfF dfC : DF) (ts : List SchemaField)
    (hfetch : a.fetchSchema = .ok ts) (hco : coerceDF ts dfF = .ok dfC)
    (husable : (usableColsOf dfC.cols (ts.map (fun f => f.name))).isEmpty = false)
    (hmissing : (a.key_fields.filter (fun k => decide (k ∉ ts.map (fun f => f.name)))).isEmpty = true) :
    afterClean a dfF =
      (dfC.rows, some (match a.schema with | some s => s | none => ts),
       mergeRows a.key_fields (usableColsOf dfC.cols (ts.map (fun f => f.name)))
         (dedupRows a.key_fields (chooseOrder (usableColsOf dfC.cols (ts.map (fun f => f.name))))
           dfC.rows)
         a.targetRows,
       .applied) := by
  simp only [afterClean, hfetch, hco, husable, hmissing, Bool.false_eq_true, if_false,
    Bool.not_true, if_true]

theorem clean_ok_facts (dfN : DF) (req : List String) (dfB dfF : DF)
    (hreq : req.isEmpty = false) (hne : dfN.isEmptyDF = false)
    (h : clean_df_drop_nulls dfN req = (dfB, .ok dfF)) :
    dfB = blankToNullDF dfN ∧
    dfF = dropNullSubset (dropAllNullRows (blankToNullDF dfN)) req ∧
    (∀ k ∈ req, k ∈ dfN.cols) ∧
    (∀ r ∈ dfF.rows, ∀ k ∈ req, getCell r k ≠ .vnull) := by
  rw [clean_df_drop_nulls] at h
  simp only [hne, Bool.false_eq_true, if_false, hreq] at h
  rcases hm : (req.filter (fun k => decide (k ∉ dfN.cols))).isEmpty with hf | ht
  · rw [hm] at h
    simp at h
  · rw [hm] at h
    simp only [if_true] at h
    obtain ⟨hB, hF⟩ := Prod.mk.injEq .. ▸ h
    have hF2 := hF
    rw [Except.ok.injEq] at hF2
    refine ⟨hB.symm, hF2.symm, ?_, ?_⟩
    · intro k hk
      by_contra hnot
      rw [List.isEmpty_iff] at hm
      have : k ∈ req.filter (fun k => decide (k ∉ dfN.cols)) := by
        rw [List.mem_filter]
        exact ⟨hk, by simp [hnot]⟩
      rw [hm] at this
      simp at this
    · intro r hr k hk
      rw [← hF2] at hr
      simp only [dropNullSubset, List.mem_filter] at hr
      have := hr.2
      rw [List.all_eq_true] at this
      have := this k hk
      simpa using this

theorem mapRowsE_ok_mem (c : String) (f : Value → Except PyError Value)
    (rows rows1 : List Row) (h : mapRowsE c f rows = .ok rows1) :
    ∀ r1 ∈ rows1, ∃ r ∈ rows, ∃ v, f (getCell r c) = .ok v ∧ r1 = updateCell r c v := by
  induction rows generalizing rows1 with
  | nil =>
    rw [mapRowsE] at h
    cases h
    intro r1 hr1
    simp at hr1
  | cons r rs ih =>
    rw [mapRowsE] at h
    rcases hv : f (getCell r c) with e | v <;> rw [hv] at h
    · cases h
    · rcases hrest : mapRowsE c f rs with e | rest <;> rw [hrest] at h
      · cases h
      · rw [Except.ok.injEq] at h
        cases h
        intro r1 hr1
        rcases List.mem_cons.mp hr1 with h1 | h1
        · exact ⟨r, List.mem_cons_self .., v, hv, h1⟩
        · obtain ⟨r0, hr0, v0, hv0, he⟩ := ih rest hrest r1 h1
          exact ⟨r0, List.mem_cons_of_mem _ hr0, v0, hv0, he⟩

theorem mapColE_ok (df : DF) (c : String) (f : Value → Except PyError Value) (df1 : DF)
    (h : mapColE df c f = .ok df1) :
    df1.cols = df.cols ∧ mapRowsE c f df.rows = .ok df1.rows := by
  rw [mapColE] at h
  rcases hrows : mapRowsE c f df.rows with e | rows <;> rw [hrows] at h
  · cases h
  · rw [Except.ok.injEq] at h
    cases h
    exact ⟨rfl, rfl⟩

theorem coerceField_ok (df : DF) (fld : SchemaField) (df1 : DF)
    (h : coerceField df fld = .ok df1) :
    df1.cols = df.cols ∧
    ∀ r1 ∈ df1.rows, ∃ r ∈ df.rows,
      r1 = r ∨ ∃ v, coerce1 fld (getCell r fld.name) = .ok v ∧ r1 = updateCell r fld.name v := by
  rw [coerceField] at h
  split at h
  · obtain ⟨hc, hrows⟩ := mapColE_ok _ _ _ _ h
    refine ⟨hc, ?_⟩
    intro r1 hr1
    obtain ⟨r, hr, v, hv, he⟩ := mapRowsE_ok_mem _ _ _ _ hrows r1 hr1
    exact ⟨r, hr, Or.inr ⟨v, hv, he⟩⟩
  · cases h
    exact ⟨rfl, fun r1 hr1 => ⟨r1, hr1, Or.inl rfl⟩⟩

theorem coerceDF_ok_facts (ts : List SchemaField) (df dfC : DF)
    (h : coerceDF ts df = .ok dfC) (P : Row → Prop)
    (hstep : ∀ fld ∈ ts, ∀ r, P r → ∀ v,
      coerce1 fld (getCell r fld.name) = .ok v → P (updateCell r fld.name v))
    (hrows : ∀ r ∈ df.rows, P r) :
    dfC.cols = df.cols ∧ ∀ r1 ∈ dfC.rows, P r1 := by
  induction ts generalizing df with
  | nil =>
    rw [coerceDF] at h
    cases h
    exact ⟨rfl, hrows⟩
  | cons fld ts ih =>
    rw [coerceDF] at h
    rcases h1 : coerceField df fld with e | df1 <;> rw [h1] at h
    · cases h
    · obtain ⟨hcols1, hmem1⟩ := coerceField_ok _ _ _ h1
      have hrows1 : ∀ r ∈ df1.rows, P r := by
        intro r1 hr1
        obtain ⟨r, hr, hcase⟩ := hmem1 r1 hr1
        rcases hcase with he | ⟨v, hv, he⟩
        · exact he ▸ hrows r hr
        · exact he ▸ hstep fld (List.mem_cons_self ..) r (hrows r hr) v hv
      obtain ⟨hcols2, hmem2⟩ := ih df1 h
        (fun fld2 h2 => hstep fld2 (List.mem_cons_of_mem _ h2)) hrows1
      exact ⟨hcols2.trans hcols1, hmem2⟩

/-! ## Merge-level lemmas -/

theorem getCell_foldl_updateCell_const_not_mem (L : List String) (t : Row)
    (g : String → Value) (c1 : String) (h : c1 ∉ L) :
    getCell (L.foldl (fun acc c => updateCell acc c (g c)) t) c1 = getCell t c1 := by
  induction L generalizing t with
  | nil => rfl
  | cons c L ih =>
    simp only [List.mem_cons, not_or] at h
    simp only [List.foldl_cons]
    rw [ih _ h.2, getCell_updateCell_ne _ _ _ _ h.1]

theorem getCell_updateNonKeys_key (nonkeys : List String) (t s : Row) (k : String)
    (h : k ∉ nonkeys) :
    getCell (updateNonKeys nonkeys t s) k = getCell t k :=
  getCell_foldl_updateCell_const_not_mem nonkeys t _ k h

theorem key_not_mem_nonkeys (usable keys : List String) (k : String) (hk : k ∈ keys) :
    k ∉ usable.filter (fun c => decide (c ∉ keys)) := by
  intro hmem
  rw [List.mem_filter] at hmem
  simp [hk] at hmem

theorem getCell_insertRowOf (usable : List String) (s : Row) (k : String) (h : k ∈ usable) :
    getCell (insertRowOf usable s) k = getCell s k := by
  induction usable with
  | nil => simp at h
  | cons c rest ih =>
    by_cases hc : c = k
    · subst hc
      simp [insertRowOf, getCell]
    · have h1 : k ∈ rest := by
        rcases List.mem_cons.mp h with h1 | h1
        · exact absurd h1.symm hc
        · exact h1
      rw [insertRowOf, List.map_cons, getCell, if_neg hc]
      have := ih h1
      rw [insertRowOf] at this
      exact this

theorem foldl_pick_mem {α : Type} (p : α → α → Bool) (g : α) (gs : List α) :
    gs.foldl (fun best r => if p r best then r else best) g ∈ g :: gs := by
  induction gs generalizing g with
  | nil => simp
  | cons r rs ih =>
    simp only [List.foldl_cons]
    by_cases hp : p r g = true
    · rw [if_pos hp]
      rcases List.mem_cons.mp (ih r) with h1 | h1
      · rw [h1]; simp
      · simp [h1]
    · rw [if_neg hp]
      rcases List.mem_cons.mp (ih g) with h1 | h1
      · rw [h1]; simp
      · simp [h1]

theorem pickLatest_mem (ord : OrderSpec) (l : List Row) (r : Row)
    (h : pickLatest ord l = some r) : r ∈ l := by
  cases l with
  | nil => cases h
  | cons g gs =>
    rw [pickLatest, Option.some.injEq] at h
    rw [← h]
    exact foldl_pick_mem _ g gs

theorem dedupRows_subset (keys : List String) (ord : OrderSpec) (rows : List Row) :
    ∀ r ∈ dedupRows keys ord rows, r ∈ rows := by
  intro r hr
  rw [dedupRows] at hr
  obtain ⟨k, _, hpick⟩ := List.mem_filterMap.mp hr
  exact List.mem_of_mem_filter (pickLatest_mem _ _ _ hpick)

theorem mergeRows_mem (keys usable : List String) (S T : List Row) :
    ∀ row ∈ mergeRows keys usable S T,
      (row ∈ T) ∨
      (∃ t ∈ T, ∃ s ∈ S, row = updateNonKeys (usable.filter (fun c => decide (c ∉ keys))) t s) ∨
      (∃ s ∈ S, row = insertRowOf usable s) := by
  intro row hrow
  rw [mergeRows] at hrow
  rcases List.mem_append.mp hrow with hup | hins
  · split at hup
    · exact Or.inl hup
    · obtain ⟨t, ht, he⟩ := List.mem_map.mp hup
      rcases hfind : S.find? (fun s => rowMatches keys t s) with _ | s <;> rw [hfind] at he
      · exact Or.inl (he ▸ ht)
      · exact Or.inr (Or.inl ⟨t, ht, s, List.mem_of_find?_eq_some hfind, he.symm⟩)
  · obtain ⟨s, hs, he⟩ := List.mem_map.mp hins
    exact Or.inr (Or.inr ⟨s, List.mem_of_mem_filter hs, he.symm⟩)

theorem normalizeBatch_isEmptyDF (now : Int) (df : DF) (h : df.isEmptyDF = false) :
    (normalizeBatch now df).isEmptyDF = false := by
  rw [DF.isEmptyDF, Bool.or_eq_false_iff] at h ⊢
  obtain ⟨h1, h2⟩ := h
  constructor
  · rcases hrows : (normalizeBatch now df).rows with _ | ⟨r, rest⟩
    · exfalso
      have hlen := normalizeBatch_rows_length now df
      rw [hrows] at hlen
      rcases hdf : df.rows with _ | ⟨r0, rest0⟩
      · rw [hdf] at h1; simp at h1
      · rw [hdf] at hlen; simp at hlen
    · rfl
  · rw [normalizeBatch_cols]
    split
    · exact h2
    · rcases hc : df.cols with _ | ⟨c, rest⟩
      · rw [hc] at h2; simp at h2
      · rfl

/-- Inversion on the target table after a call: either the target is
untouched (any reject/skip/raise path), or the call went through the
whole pipeline and the target is the merge of the deduplicated coerced
batch. -/
theorem upsert_target_inv (a : UpsertArgs) (df? : Option DF) :
    (upsert_to_bq a df?).target = a.targetRows ∨
    ∃ df dfB dfF dfC ts,
      df? = some df ∧ a.key_fields.isEmpty = false ∧ df.isEmptyDF = false ∧
      clean_df_drop_nulls (normalizeBatch a.now df) a.key_fields = (dfB, .ok dfF) ∧
      dfF.rows.isEmpty = false ∧
      a.fetchSchema = .ok ts ∧ coerceDF ts dfF = .ok dfC ∧
      (usableColsOf dfC.cols (ts.map (fun f => f.name))).isEmpty = false ∧
      (a.key_fields.filter (fun k => decide (k ∉ ts.map (fun f => f.name)))).isEmpty = true ∧
      (upsert_to_bq a df?).target =
        mergeRows a.key_fields (usableColsOf dfC.cols (ts.map (fun f => f.name)))
          (dedupRows a.key_fields
            (chooseOrder (usableColsOf dfC.cols (ts.map (fun f => f.name)))) dfC.rows)
          a.targetRows := by
  rcases hk : a.key_fields.isEmpty with hkf | hkt
  case true => left; simp [upsert_to_bq, hk]
  rcases df? with _ | df
  · left; simp [upsert_to_bq, hk]
  rcases hne : df.isEmptyDF with hnf | hnt
  case true => left; simp [upsert_to_bq, hk, hne]
  rcases hclean : clean_df_drop_nulls (normalizeBatch a.now df) a.key_fields with ⟨dfB, e | dfF⟩
  · left; simp [upsert_to_bq, hk, hne, hclean]
  rcases hF : dfF.rows.isEmpty with hFf | hFt
  case true => left; simp [upsert_to_bq, hk, hne, hclean, hF]
  have hrun := upsert_to_bq_run a df dfB dfF hk hne hclean hF
  rcases hfetch : a.fetchSchema with e | ts
  · left
    rw [hrun, afterClean_fetch_err a dfF e hfetch]
  rcases hco : coerceDF ts dfF with e | dfC
  · left
    rw [hrun, afterClean_coerce_err a dfF ts e hfetch hco]
  rcases husable : (usableColsOf dfC.cols (ts.map (fun f => f.name))).isEmpty with huf | hut
  case true =>
    left
    rw [hrun, afterClean_no_usable a dfF dfC ts hfetch hco husable]
  rcases hmissing : (a.key_fields.filter
      (fun k => decide (k ∉ ts.map (fun f => f.name)))).isEmpty with hmf | hmt
  case false =>
    left
    rw [hrun]
    simp only [afterClean, hfetch, hco, husable, hmissing]
    simp
  right
  refine ⟨df, dfB, dfF, dfC, ts, rfl, rfl, hne, hclean, hF, rfl, hco, husable, hmissing, ?_⟩
  rw [hrun, afterClean_applied a dfF dfC ts hfetch hco husable hmissing]

/-! ## Claim theorems -/

/-- C1, counterexample.  The claim says no row written to the target
has a null key value, "including values that the schema coercion step
converts to null".  It is false: the required-non-null key filter runs
*before* coercion (line 162 vs lines 181-241), so a non-null key value
that coercion nulls (here the string "abc" in an INT64 key column) is
staged as NULL, matches no target row under the `ON` clause, and is
inserted — the written target row is null in the key column `id`. -/
theorem upsert_null_key_reaches_target :
    (upsert_to_bq argsIntKey (some dfIntKey)).status = .applied ∧
    (upsert_to_bq argsIntKey (some dfIntKey)).target = [[("id", Value.vnull)]] ∧
    getCell [("id", Value.vnull)] "id" = Value.vnull := by
  decide

/-- C3, counterexample.  Running the same null-key-producing batch
twice inserts the null-key row twice: the second run's staged row
still matches nothing (`NULL = NULL` is not true in the `ON` clause),
so the target ends with two rows instead of one — upsert twice is not
upsert once. -/
theorem upsert_twice_duplicates_null_key :
    (upsert_to_bq argsIntKey (some dfIntKey)).target = [[("id", Value.vnull)]] ∧
    (upsert_to_bq
        { argsIntKey with
            targetRows := (upsert_to_bq argsIntKey (some dfIntKey)).target,
            stagingPrev := (upsert_to_bq argsIntKey (some dfIntKey)).staging,
            now := 5 }
        (upsert_to_bq argsIntKey (some dfIntKey)).batch).target =
      [[("id", Value.vnull)], [("id", Value.vnull)]] := by
  decide

/-- C4, counterexample.  The INT64 coercion branch is
`pd.to_numeric(col, errors="coerce").astype("Int64")`; on a value that
parses to a number with a nonzero fractional part (`"1.5"`), the
nullable-integer cast raises `TypeError` instead of returning a value
or null — coercion is not total. -/
theorem coerce_int64_fractional_raises :
    coerce1 ⟨"amount", "INT64", none⟩ (.vstr "1.5") =
      .error (.typeError "cannot safely cast non-equivalent float64 to int64") := by
  decide

/-- C6, counterexample.  `upsert_to_bq` mutates the caller's
DataFrame: the batch had no `ingested_at` column, and after the call
the caller's object has one (stamped), so the input data is not
"unchanged in every cell and column". -/
theorem upsert_adds_ingested_at_to_caller_batch :
    (upsert_to_bq argsIntKey (some dfIntKey)).batch ≠ some dfIntKey ∧
    (upsert_to_bq argsIntKey (some dfIntKey)).batch =
      some ⟨["id", "ingested_at"],
            [[("id", Value.vstr "abc"), ("ingested_at", Value.vtimestamp 0)]]⟩ := by
  decide

/-- C7, counterexample.  The empty-intersection failure is raised as
`RuntimeError` (line 261) — the *same* exception class as the
schema-fetch failure (line 175), which the spec's taxonomy calls an
ExecutionError; the other validation checks use `ValueError` (lines
125, 266).  So the failure is not a ValidationError-class error
distinct from the ExecutionError class. -/
theorem no_matching_columns_error_is_runtime_class :
    (upsert_to_bq argsNoOverlap (some dfIntKey)).status =
      .raised (.runtimeError "No DataFrame columns match target table schema; aborting MERGE.") ∧
    (upsert_to_bq argsFetchFail (some dfStrOnly)).status =
      .raised (.runtimeError "Unable to fetch target table schema: 404 table not found") := by
  decide

/-- C8, counterexample.  A schema-fetch failure aborts the call even
though the caller supplied an explicit schema: fetching the live
schema is unconditional (line 173), not "needed only when no explicit
schema is supplied". -/
theorem schema_fetch_failure_despite_explicit_schema :
    argsFetchFail.schema.isSome = true ∧
    (upsert_to_bq argsFetchFail (some dfStrOnly)).status =
      .raised (.runtimeError "Unable to fetch target table schema: 404 table not found") ∧
    (upsert_to_bq argsFetchFail (some dfStrOnly)).target = argsFetchFail.targetRows := by
  decide

/-- C10, counterexample.  The batch lacked `ingested_at`, so the call
stamps it; but the target declares `ingested_at` as INT64, the
numeric coercion fails to parse the stamped timestamp string, and the
staged row carries NULL in `ingested_at` — not every staged row
carries a non-null `ingested_at` value. -/
theorem int64_ingested_at_stamp_nulled :
    "ingested_at" ∉ dfStrOnly.cols ∧
    (upsert_to_bq argsIntStamp (some dfStrOnly)).staging =
      [[("id", Value.vstr "a"), ("ingested_at", Value.vnull)]] := by
  decide

/-- C5, confirmed.  A call whose batch is null, empty, or became
empty after the blank-to-null normalization and required-non-null key
filtering performs no staging load, leaves the target untouched, and
returns the SkippedEmpty outcome (the early `return`s at lines
129-131 and 163-165) rather than an error. -/
theorem upsert_empty_batch_noop (a : UpsertArgs) (df? : Option DF)
    (hk : a.key_fields.isEmpty = false)
    (hempty : df? = none ∨ (∃ df, df? = some df ∧ df.isEmptyDF = true) ∨
      (∃ df dfB dfF, df? = some df ∧ df.isEmptyDF = false ∧
        clean_df_drop_nulls (normalizeBatch a.now df) a.key_fields = (dfB, .ok dfF) ∧
        dfF.rows.isEmpty = true)) :
    (upsert_to_bq a df?).status = .skippedEmpty ∧
    (upsert_to_bq a df?).target = a.targetRows ∧
    (upsert_to_bq a df?).staging = a.stagingPrev ∧
    (upsert_to_bq a df?).loadSchema = none := by
  rcases hempty with h | ⟨df, hdf, hem⟩ | ⟨df, dfB, dfF, hdf, hne, hclean, hF⟩
  · subst h
    simp [upsert_to_bq, hk]
  · subst hdf
    simp [upsert_to_bq, hk, hem]
  · subst hdf
    simp [upsert_to_bq, hk, hne, hclean, hF]

/-- C5, witness. -/
theorem upsert_empty_batch_noop_witness :
    (upsert_to_bq argsStrKey none).status = .skippedEmpty ∧
    (upsert_to_bq argsStrKey none).target = argsStrKey.targetRows :=
  ⟨(upsert_empty_batch_noop argsStrKey none (by decide) (Or.inl rfl)).1,
   (upsert_empty_batch_noop argsStrKey none (by decide) (Or.inl rfl)).2.1⟩

/-- C7, amended.  When the post-normalization batch shares no column
with the target schema, the call fails with the message that no
columns match — but raised as `RuntimeError`, the same exception class
as the warehouse-side schema-fetch failure, not a distinct
ValidationError class (the other validation checks use `ValueError`);
the target is left untouched. -/
theorem upsert_no_matching_columns_error (a : UpsertArgs) (df dfB dfF dfC : DF)
    (ts : List SchemaField)
    (hk : a.key_fields.isEmpty = false) (hne : df.isEmptyDF = false)
    (hclean : clean_df_drop_nulls (normalizeBatch a.now df) a.key_fields = (dfB, .ok dfF))
    (hF : dfF.rows.isEmpty = false)
    (hfetch : a.fetchSchema = .ok ts) (hco : coerceDF ts dfF = .ok dfC)
    (husable : (usableColsOf dfC.cols (ts.map (fun f => f.name))).isEmpty = true) :
    (upsert_to_bq a (some df)).status =
      .raised (.runtimeError "No DataFrame columns match target table schema; aborting MERGE.") ∧
    (upsert_to_bq a (some df)).target = a.targetRows := by
  rw [upsert_to_bq_run a df dfB dfF hk hne hclean hF,
      afterClean_no_usable a dfF dfC ts hfetch hco husable]
  exact ⟨rfl, rfl⟩

/-- C7, witness. -/
theorem upsert_no_matching_columns_error_witness :
    (upsert_to_bq argsNoOverlap (some dfIntKey)).status =
      .raised (.runtimeError "No DataFrame columns match target table schema; aborting MERGE.") ∧
    (upsert_to_bq argsNoOverlap (some dfIntKey)).target = argsNoOverlap.targetRows :=
  upsert_no_matching_columns_error argsNoOverlap dfIntKey
    ⟨["id", "ingested_at"], [[("id", .vstr "abc"), ("ingested_at", .vtimestamp 0)]]⟩
    ⟨["id", "ingested_at"], [[("id", .vstr "abc"), ("ingested_at", .vtimestamp 0)]]⟩
    ⟨["id", "ingested_at"], [[("id", .vstr "abc"), ("ingested_at", .vtimestamp 0)]]⟩
    [⟨"z", "STRING", none⟩]
    (by decide) (by decide) (by decide) (by decide) (by decide) (by decide) (by decide)

/-- C8, amended.  The target's live schema is always fetched: a fetch
failure is a fatal `RuntimeError` even when the caller supplied an
explicit schema (and the fetched schema is what drives coercion); the
explicit schema wins only as the staging load job's schema, falling
back to the fetched schema when absent. -/
theorem upsert_schema_fetch_always_required (a : UpsertArgs) (df dfB dfF : DF)
    (hk : a.key_fields.isEmpty = false) (hne : df.isEmptyDF = false)
    (hclean : clean_df_drop_nulls (normalizeBatch a.now df) a.key_fields = (dfB, .ok dfF))
    (hF : dfF.rows.isEmpty = false) :
    (∀ e, a.fetchSchema = .error e →
      (upsert_to_bq a (some df)).status =
        .raised (.runtimeError ("Unable to fetch target table schema: " ++ e)) ∧
      (upsert_to_bq a (some df)).target = a.targetRows ∧
      (upsert_to_bq a (some df)).staging = a.stagingPrev) ∧
    (∀ ts dfC, a.fetchSchema = .ok ts → coerceDF ts dfF = .ok dfC →
      (upsert_to_bq a (some df)).loadSchema =
        some (match a.schema with | some s => s | none => ts)) := by
  have hrun := upsert_to_bq_run a df dfB dfF hk hne hclean hF
  constructor
  · intro e hfetch
    rw [hrun, afterClean_fetch_err a dfF e hfetch]
    exact ⟨rfl, rfl, rfl⟩
  · intro ts dfC hfetch hco
    rw [hrun]
    simp only [afterClean, hfetch, hco]
    split
    · rfl
    · split <;> rfl

/-- C8, witness. -/
theorem upsert_schema_fetch_always_required_witness :
    (upsert_to_bq argsFetchFail (some dfStrOnly)).status =
      .raised (.runtimeError ("Unable to fetch target table schema: " ++ "404 table not found")) :=
  ((upsert_schema_fetch_always_required argsFetchFail dfStrOnly
      ⟨["id", "ingested_at"], [[("id", .vstr "a"), ("ingested_at", .vtimestamp 0)]]⟩
      ⟨["id", "ingested_at"], [[("id", .vstr "a"), ("ingested_at", .vtimestamp 0)]]⟩
      (by decide) (by decide) (by decide) (by decide)).1
    "404 table not found" (by decide)).1

/-- C9, confirmed.  When every usable column is a key column, the
generated merge plan has no `WHEN MATCHED` clause (lines 313-323):
target rows whose keys match a staged row are left completely
unchanged (the original target rows appear verbatim, in place), and
only staged rows whose keys match no target row are inserted. -/
theorem upsert_keys_only_no_update (a : UpsertArgs) (df dfB dfF dfC : DF)
    (ts : List SchemaField)
    (hk : a.key_fields.isEmpty = false) (hne : df.isEmptyDF = false)
    (hclean : clean_df_drop_nulls (normalizeBatch a.now df) a.key_fields = (dfB, .ok dfF))
    (hF : dfF.rows.isEmpty = false)
    (hfetch : a.fetchSchema = .ok ts) (hco : coerceDF ts dfF = .ok dfC)
    (husable : (usableColsOf dfC.cols (ts.map (fun f => f.name))).isEmpty = false)
    (hmissing : (a.key_fields.filter
      (fun k => decide (k ∉ ts.map (fun f => f.name)))).isEmpty = true)
    (hnonkey : (usableColsOf dfC.cols (ts.map (fun f => f.name))).filter
      (fun c => decide (c ∉ a.key_fields)) = []) :
    (upsert_to_bq a (some df)).target =
      a.targetRows ++
        ((dedupRows a.key_fields
            (chooseOrder (usableColsOf dfC.cols (ts.map (fun f => f.name)))) dfC.rows).filter
          (fun s => !a.targetRows.any (fun t => rowMatches a.key_fields t s))).map
          (insertRowOf (usableColsOf dfC.cols (ts.map (fun f => f.name)))) ∧
    ∀ t ∈ a.targetRows, t ∈ (upsert_to_bq a (some df)).target := by
  rw [upsert_to_bq_run a df dfB dfF hk hne hclean hF,
      afterClean_applied a dfF dfC ts hfetch hco husable hmissing]
  rw [mergeRows]
  simp only [hnonkey, List.isEmpty_nil, if_true]
  refine ⟨?_, fun t ht => List.mem_append.mpr (Or.inl ht)⟩
  trivial

/-- C9, witness: a keys-only target whose single row's key matches
the staged row; the target row survives completely unchanged and
nothing is inserted. -/
theorem upsert_keys_only_no_update_witness :
    (upsert_to_bq argsKeysOnly (some dfStrOnly)).target =
      argsKeysOnly.targetRows ++
        ((dedupRows argsKeysOnly.key_fields
            (chooseOrder (usableColsOf ["id", "ingested_at"] ["id"]))
            [[("id", Value.vstr "a"), ("ingested_at", Value.vtimestamp 0)]]).filter
          (fun s => !argsKeysOnly.targetRows.any
            (fun t => rowMatches argsKeysOnly.key_fields t s))).map
          (insertRowOf (usableColsOf ["id", "ingested_at"] ["id"])) :=
  (upsert_keys_only_no_update argsKeysOnly dfStrOnly
    ⟨["id", "ingested_at"], [[("id", .vstr "a"), ("ingested_at", .vtimestamp 0)]]⟩
    ⟨["id", "ingested_at"], [[("id", .vstr "a"), ("ingested_at", .vtimestamp 0)]]⟩
    ⟨["id", "ingested_at"], [[("id", .vstr "a"), ("ingested_at", .vtimestamp 0)]]⟩
    [⟨"id", "STRING", none⟩]
    (by decide) (by decide) (by decide) (by decide) (by decide) (by decide)
    (by decide) (by decide) (by decide)).1

theorem ensure_string_ne_null (v : Value) (hv : v ≠ .vnull) : ensure_string v ≠ .vnull := by
  cases v <;> simp [ensure_string] at hv ⊢

theorem ensure_list_ne_null (v : Value) : ensure_list v ≠ .vnull := by
  cases v <;> simp [ensure_list]

/-- On a STRING-declared field, a successful coercion of a non-null
value is non-null (the REPEATED branch yields a list, the STRING
branch a string). -/
theorem coerce1_string_ok_ne_null (fld : SchemaField) (v : Value)
    (hty : upperAscii fld.field_type = "STRING") (hv : v ≠ .vnull) (w : Value)
    (h : coerce1 fld v = .ok w) : w ≠ .vnull := by
  rw [coerce1, hty] at h
  by_cases hm : modeOf fld = "REPEATED"
  · rw [if_pos hm] at h
    cases h
    exact ensure_list_ne_null v
  · rw [if_neg hm] at h
    simp only [String.reduceEq, if_false, or_self, or_false, false_or, if_true] at h
    cases h
    exact ensure_string_ne_null v hv

/-- C1, amended.  Every row the upsert writes to the target has
non-null values in all key columns, provided the schema coercion step
preserves the keys' non-nullness — guaranteed here by key columns
being STRING-declared in the target schema (the null-key filter runs
before coercion, so for key types whose coercion can null a value,
such as INT64, a null key can still reach the target, as the
counterexample shows); target rows already satisfying the invariant
keep it. -/
theorem upsert_key_enforcement_string_keys (a : UpsertArgs) (df? : Option DF)
    (hkeystr : ∀ k ∈ a.key_fields, ∀ ts, a.fetchSchema = .ok ts →
      ∀ fld ∈ ts, fld.name = k → upperAscii fld.field_type = "STRING")
    (hold : ∀ t ∈ a.targetRows, ∀ k ∈ a.key_fields, getCell t k ≠ .vnull) :
    ∀ row ∈ (upsert_to_bq a df?).target, ∀ k ∈ a.key_fields, getCell row k ≠ .vnull := by
  rcases upsert_target_inv a df? with hT |
    ⟨df, dfB, dfF, dfC, ts, hdf, hk, hne, hclean, hF, hfetch, hco, husable, hmissing, hT⟩
  · rw [hT]; exact hold
  · rw [hT]
    intro row hrow k hk2
    have hneN := normalizeBatch_isEmptyDF a.now df hne
    obtain ⟨hB, hFdef, hkeysin, hnonnull⟩ :=
      clean_ok_facts (normalizeBatch a.now df) a.key_fields dfB dfF hk hneN hclean
    have hstep : ∀ fld ∈ ts, ∀ r, (∀ k2 ∈ a.key_fields, getCell r k2 ≠ .vnull) → ∀ v,
        coerce1 fld (getCell r fld.name) = .ok v →
        (∀ k2 ∈ a.key_fields, getCell (updateCell r fld.name v) k2 ≠ .vnull) := by
      intro fld hfld r hP v hco1 k2 hk3
      by_cases hn : k2 = fld.name
      · subst hn
        rw [getCell_updateCell_self]
        refine coerce1_string_ok_ne_null fld _ ?_ ?_ v hco1
        · exact hkeystr fld.name hk3 ts hfetch fld hfld rfl
        · exact hP fld.name hk3
      · rw [getCell_updateCell_ne _ _ _ _ hn]
        exact hP k2 hk3
    obtain ⟨hcols, hstaged⟩ := coerceDF_ok_facts ts dfF dfC hco
      (fun r => ∀ k2 ∈ a.key_fields, getCell r k2 ≠ .vnull) hstep hnonnull
    rcases mergeRows_mem _ _ _ _ row hrow with ht | ⟨t, ht, s, hs, he⟩ | ⟨s, hs, he⟩
    · exact hold row ht k hk2
    · rw [he, getCell_updateNonKeys_key _ _ _ _ (key_not_mem_nonkeys _ _ _ hk2)]
      exact hold t ht k hk2
    · have hdfFcols : dfF.cols = (normalizeBatch a.now df).cols := by
        rw [hFdef]
        rfl
      have hktc : k ∈ ts.map (fun f => f.name) := by
        by_contra hnot
        rw [List.isEmpty_iff] at hmissing
        have : k ∈ a.key_fields.filter
            (fun k => decide (k ∉ ts.map (fun f => f.name))) :=
          List.mem_filter.mpr ⟨hk2, by simp [hnot]⟩
        rw [hmissing] at this
        simp at this
      have hkusable : k ∈ usableColsOf dfC.cols (ts.map (fun f => f.name)) := by
        rw [usableColsOf, List.mem_filter]
        refine ⟨?_, by simp [hktc]⟩
        rw [hcols, hdfFcols]
        exact hkeysin k hk2
      rw [he, getCell_insertRowOf _ _ _ hkusable]
      exact hstaged s (dedupRows_subset _ _ _ s hs) k hk2

/-- C1, witness: a STRING-keyed upsert writes exactly one row, and
that row keeps its non-null key. -/
theorem upsert_key_enforcement_string_keys_witness :
    (upsert_to_bq argsStrKey (some dfStrOnly)).target = [[("id", Value.vstr "a")]] ∧
    getCell [("id", Value.vstr "a")] "id" ≠ Value.vnull :=
  ⟨by decide,
   upsert_key_enforcement_string_keys argsStrKey (some dfStrOnly)
     (by
       intro k hk ts hts fld hfld hname
       injection hts with h1
       subst h1
       simp at hfld
       subst hfld
       decide)
     (by decide)
     [("id", Value.vstr "a")] (by decide) "id" (by decide)⟩

/-- On a TIMESTAMP/DATETIME-declared, non-repeated field, coercion
fixes an instant value. -/
theorem coerce1_ts_fixed (fld : SchemaField) (t : Int)
    (hm : modeOf fld ≠ "REPEATED")
    (hty : upperAscii fld.field_type = "TIMESTAMP" ∨ upperAscii fld.field_type = "DATETIME") :
    coerce1 fld (.vtimestamp t) = .ok (.vtimestamp t) := by
  rw [coerce1]
  rcases hty with h | h <;> rw [h] <;>
    simp [hm, coerce_ts, toInstant?]

/-- C10, amended.  When the batch lacks an `ingested_at` column, the
call stamps one with the current instant before normalization, and —
provided the target schema declares `ingested_at` (if at all) as a
non-repeated TIMESTAMP/DATETIME column — every staged row carries that
non-null stamp (a numeric-declared `ingested_at` would instead null
it, as the counterexample shows); and whenever the target schema
contains an `ingested_at` column, the dedup ranking orders by
`ingested_at`, so the `published_at`/`created_at` fallbacks are
unused. -/
theorem upsert_ingested_at_stamp (a : UpsertArgs) (df dfB dfF dfC : DF)
    (ts : List SchemaField)
    (hk : a.key_fields.isEmpty = false) (hne : df.isEmptyDF = false)
    (hclean : clean_df_drop_nulls (normalizeBatch a.now df) a.key_fields = (dfB, .ok dfF))
    (hF : dfF.rows.isEmpty = false)
    (hfetch : a.fetchSchema = .ok ts) (hco : coerceDF ts dfF = .ok dfC)
    (hstamp : "ingested_at" ∉ df.cols)
    (hts_ia : ∀ fld ∈ ts, fld.name = "ingested_at" →
      modeOf fld ≠ "REPEATED" ∧
      (upperAscii fld.field_type = "TIMESTAMP" ∨ upperAscii fld.field_type = "DATETIME")) :
    (upsert_to_bq a (some df)).staging = dfC.rows ∧
    (∀ r1 ∈ dfC.rows, getCell r1 "ingested_at" = .vtimestamp a.now) ∧
    ("ingested_at" ∈ ts.map (fun f => f.name) →
      chooseOrder (usableColsOf dfC.cols (ts.map (fun f => f.name))) = .byCol "ingested_at") := by
  have hneN := normalizeBatch_isEmptyDF a.now df hne
  obtain ⟨hB, hFdef, hkeysin, hnonnull⟩ :=
    clean_ok_facts (normalizeBatch a.now df) a.key_fields dfB dfF hk hneN hclean
  have hdfFstamp : ∀ r1 ∈ dfF.rows, getCell r1 "ingested_at" = .vtimestamp a.now := by
    intro r1 hr1
    rw [hFdef] at hr1
    have hr2 : r1 ∈ (blankToNullDF (normalizeBatch a.now df)).rows :=
      List.mem_of_mem_filter (List.mem_of_mem_filter hr1)
    rw [blankToNullDF] at hr2
    obtain ⟨r0, hr0, he⟩ := List.mem_map.mp hr2
    obtain ⟨i, hi⟩ := List.mem_iff_getElem?.mp hr0
    rw [← he, getCell_blankRow,
      getCell_normalizeBatch_stamp a.now df hstamp i r0 hi]
    rfl
  have hstep : ∀ fld ∈ ts, ∀ r, getCell r "ingested_at" = .vtimestamp a.now → ∀ v,
      coerce1 fld (getCell r fld.name) = .ok v →
      getCell (updateCell r fld.name v) "ingested_at" = .vtimestamp a.now := by
    intro fld hfld r hP v hco1
    by_cases hn : fld.name = "ingested_at"
    · rw [hn] at hco1 ⊢
      rw [getCell_updateCell_self]
      rw [hP] at hco1
      obtain ⟨hm, hty⟩ := hts_ia fld hfld hn
      rw [coerce1_ts_fixed fld a.now hm hty] at hco1
      cases hco1
      rfl
    · rw [getCell_updateCell_ne _ _ _ _ (fun he => hn he.symm)]
      exact hP
  obtain ⟨hcols, hstaged⟩ := coerceDF_ok_facts ts dfF dfC hco
    (fun r => getCell r "ingested_at" = .vtimestamp a.now) hstep hdfFstamp
  have hdfCcols : "ingested_at" ∈ dfC.cols := by
    rw [hcols, hFdef]
    show "ingested_at" ∈ (normalizeBatch a.now df).cols
    rw [normalizeBatch_cols]
    simp [hstamp]
  refine ⟨?_, hstaged, ?_⟩
  · rw [upsert_to_bq_run a df dfB dfF hk hne hclean hF]
    show (afterClean a dfF).1 = dfC.rows
    simp only [afterClean, hfetch, hco]
    split
    · rfl
    · split <;> rfl
  · intro hia
    rw [chooseOrder, if_pos]
    rw [usableColsOf, List.mem_filter]
    exact ⟨hdfCcols, by simp [hia]⟩

/-- C10, witness: a batch without `ingested_at` against a target with
a TIMESTAMP `ingested_at` column. -/
theorem upsert_ingested_at_stamp_witness :
    (upsert_to_bq argsRecency (some dfStrOnly)).staging =
      [[("id", Value.vstr "a"), ("ingested_at", Value.vtimestamp 0)]] ∧
    ("ingested_at" ∈ (["id", "amount", "ingested_at"] : List String) →
      chooseOrder (usableColsOf ["id", "ingested_at"] ["id", "amount", "ingested_at"]) =
        .byCol "ingested_at") := by
  have h := upsert_ingested_at_stamp argsRecency dfStrOnly
    ⟨["id", "ingested_at"], [[("id", .vstr "a"), ("ingested_at", .vtimestamp 0)]]⟩
    ⟨["id", "ingested_at"], [[("id", .vstr "a"), ("ingested_at", .vtimestamp 0)]]⟩
    ⟨["id", "ingested_at"], [[("id", .vstr "a"), ("ingested_at", .vtimestamp 0)]]⟩
    [⟨"id", "STRING", none⟩, ⟨"amount", "FLOAT64", none⟩, ⟨"ingested_at", "TIMESTAMP", none⟩]
    (by decide) (by decide) (by decide) (by decide) (by decide) (by decide) (by decide)
    (by decide)
  exact ⟨h.1, h.2.2⟩

theorem ensure_list_isList (v : Value) : ∃ xs, ensure_list v = .vlist xs := by
  cases v <;> exact ⟨_, rfl⟩

theorem ensure_string_shape (v : Value) :
    ensure_string v = .vnull ∨ ∃ s, ensure_string v = .vstr s := by
  cases v
  case vnull => exact Or.inl rfl
  all_goals exact Or.inr ⟨_, rfl⟩

theorem coerce_float_shape (v : Value) :
    coerce_float v = .vnull ∨ (∃ d, coerce_float v = .vfloat d) ∨
      ∃ b, coerce_float v = .vinf b := by
  rw [coerce_float]
  rcases parseNumeric v with _ | b | d
  · exact Or.inl rfl
  · exact Or.inr (Or.inr ⟨b, rfl⟩)
  · exact Or.inr (Or.inl ⟨d, rfl⟩)

theorem coerce_ts_shape (v : Value) :
    coerce_ts v = .vnull ∨ ∃ t, coerce_ts v = .vtimestamp t := by
  rw [coerce_ts]
  rcases toInstant? v with _ | t
  · exact Or.inl rfl
  · exact Or.inr ⟨t, rfl⟩

theorem to_date_shape (v : Value) (hv : ∀ xs, v ≠ .vlist xs) :
    ∃ w, to_date v = .ok w ∧ (w = .vnull ∨ ∃ d, w = .vdate d) := by
  cases v
  case vlist xs => exact absurd rfl (hv xs)
  case vnull => exact ⟨.vnull, rfl, Or.inl rfl⟩
  all_goals
    (rw [to_date]
     simp only [isna_scalar]
     rcases toInstant? _ with _ | t
     · exact ⟨.vnull, rfl, Or.inl rfl⟩
     · exact ⟨_, rfl, Or.inr ⟨_, rfl⟩⟩)

/-- C4, amended.  For every column value and every supported target
logical type, the schema coercion step returns a valid instance of
the type or null and never raises, *except* for two raising cases:
an INT64 column whose value parses to a number the nullable-integer
cast cannot round-trip — a nonzero fractional part (as the
counterexample shows), a whole number outside the `int64` range, or
an infinity — and a DATE column holding a sequence value (the scalar
null-check trips over an array).  Outside those two cases, coercion
is total and type-faithful. -/
theorem coerce_total_valid_or_null (fld : SchemaField) (v : Value)
    (hint : modeOf fld = "REPEATED" ∨ upperAscii fld.field_type ≠ "INT64" ∨
      ((∀ d, parseNumeric v = .fin d → d.int64Castable = true) ∧
       ∀ b, parseNumeric v ≠ .inf b))
    (hdate : modeOf fld = "REPEATED" ∨ upperAscii fld.field_type ≠ "DATE" ∨
      (∀ xs, v ≠ .vlist xs)) :
    ∃ w, coerce1 fld v = .ok w ∧ (w = .vnull ∨ validFor fld w = true) := by
  by_cases hm : modeOf fld = "REPEATED"
  · obtain ⟨xs, hxs⟩ := ensure_list_isList v
    refine ⟨.vlist xs, ?_, Or.inr ?_⟩
    · rw [coerce1, if_pos hm, hxs]
    · rw [validFor, if_pos hm]
      rfl
  · by_cases h1 : upperAscii fld.field_type = "INT64"
    · have hcast : (∀ d, parseNumeric v = .fin d → d.int64Castable = true) ∧
          ∀ b, parseNumeric v ≠ .inf b := by
        rcases hint with h | h | h
        · exact absurd h hm
        · exact absurd h1 h
        · exact h
      rcases hp : parseNumeric v with _ | b | d
      · refine ⟨.vnull, ?_, Or.inl rfl⟩
        rw [coerce1, if_neg hm, if_pos h1, hp]
      · exact absurd hp (hcast.2 b)
      · have hw : d.int64Castable = true := hcast.1 d hp
        refine ⟨.vint d.toIntVal, ?_, Or.inr ?_⟩
        · rw [coerce1, if_neg hm, if_pos h1, hp]
          simp [hw]
        · rw [validFor, if_neg hm, if_pos h1]
          rfl
    · by_cases h2 : upperAscii fld.field_type = "FLOAT64" ∨ upperAscii fld.field_type = "NUMERIC" ∨
          upperAscii fld.field_type = "BIGNUMERIC" ∨ upperAscii fld.field_type = "DOUBLE"
      · rcases coerce_float_shape v with h | ⟨d, hd⟩ | ⟨b, hb⟩
        · refine ⟨.vnull, ?_, Or.inl rfl⟩
          rw [coerce1, if_neg hm, if_neg h1, if_pos h2, h]
        · refine ⟨.vfloat d, ?_, Or.inr ?_⟩
          · rw [coerce1, if_neg hm, if_neg h1, if_pos h2, hd]
          · rw [validFor, if_neg hm, if_neg h1, if_pos h2]
            rfl
        · refine ⟨.vinf b, ?_, Or.inr ?_⟩
          · rw [coerce1, if_neg hm, if_neg h1, if_pos h2, hb]
          · rw [validFor, if_neg hm, if_neg h1, if_pos h2]
            rfl
      · by_cases h3 : upperAscii fld.field_type = "TIMESTAMP" ∨
            upperAscii fld.field_type = "DATETIME"
        · rcases coerce_ts_shape v with h | ⟨t, ht⟩
          · refine ⟨.vnull, ?_, Or.inl rfl⟩
            rw [coerce1, if_neg hm, if_neg h1, if_neg h2, if_pos h3, h]
          · refine ⟨.vtimestamp t, ?_, Or.inr ?_⟩
            · rw [coerce1, if_neg hm, if_neg h1, if_neg h2, if_pos h3, ht]
            · rw [validFor, if_neg hm, if_neg h1, if_neg h2, if_pos h3]
              rfl
        · by_cases h4 : upperAscii fld.field_type = "DATE"
          · have hlist : ∀ xs, v ≠ .vlist xs := by
              rcases hdate with h | h | h
              · exact absurd h hm
              · exact absurd h4 h
              · exact h
            obtain ⟨w, hw, hshape⟩ := to_date_shape v hlist
            refine ⟨w, ?_, ?_⟩
            · rw [coerce1, if_neg hm, if_neg h1, if_neg h2, if_neg h3, if_pos h4]
              exact hw
            · rcases hshape with h | ⟨d, hd⟩
              · exact Or.inl h
              · refine Or.inr ?_
                subst hd
                rw [validFor, if_neg hm, if_neg h1, if_neg h2, if_neg h3, if_pos h4]
                rfl
          · by_cases h5 : upperAscii fld.field_type = "STRING" ∨
                upperAscii fld.field_type = "JSON"
            · rcases ensure_string_shape v with h | ⟨s, hs⟩
              · refine ⟨.vnull, ?_, Or.inl rfl⟩
                rw [coerce1, if_neg hm, if_neg h1, if_neg h2, if_neg h3, if_neg h4,
                  if_pos h5, h]
              · refine ⟨.vstr s, ?_, Or.inr ?_⟩
                · rw [coerce1, if_neg hm, if_neg h1, if_neg h2, if_neg h3, if_neg h4,
                    if_pos h5, hs]
                · rw [validFor, if_neg hm, if_neg h1, if_neg h2, if_neg h3, if_neg h4,
                    if_pos h5]
                  rfl
            · refine ⟨v, ?_, Or.inr ?_⟩
              · rw [coerce1, if_neg hm, if_neg h1, if_neg h2, if_neg h3, if_neg h4,
                  if_neg h5]
              · rw [validFor, if_neg hm, if_neg h1, if_neg h2, if_neg h3, if_neg h4,
                  if_neg h5]

/-- C4, witness: the unconvertible-numeric scenario of the spec — the
string "N/A" in a FLOAT64 column coerces to null without raising. -/
theorem coerce_total_valid_or_null_witness :
    ∃ w, coerce1 ⟨"amount", "FLOAT64", none⟩ (.vstr "N/A") = .ok w ∧
      (w = .vnull ∨ validFor ⟨"amount", "FLOAT64", none⟩ w = true) :=
  coerce_total_valid_or_null ⟨"amount", "FLOAT64", none⟩ (.vstr "N/A")
    (Or.inr (Or.inl (by decide))) (Or.inr (Or.inl (by decide)))

/-- C6, amended.  `upsert_to_bq` mutates the caller's batch in place:
the caller's object ends as the blank-normalized, stamped, in-place
normalized frame.  The mutation is limited to the normalization — no
rows are added or removed from the caller's object, the original
columns all survive (plus the `ingested_at` stamp), and every cell
outside the normalized columns (`ingested_at`, `tickers`, `raw`, the
`*_at` instant columns) whose value is not a blank string is
unchanged.  Row filtering and schema coercion act on copies. -/
theorem upsert_mutation_frame (a : UpsertArgs) (df : DF)
    (hk : a.key_fields.isEmpty = false) (hne : df.isEmptyDF = false) :
    ∃ b, (upsert_to_bq a (some df)).batch = some b ∧
      b.rows.length = df.rows.length ∧
      (∀ c ∈ df.cols, c ∈ b.cols) ∧
      (∀ (i : Nat) (r r1 : Row), df.rows[i]? = some r → b.rows[i]? = some r1 →
        ∀ c, c ≠ "ingested_at" → c ≠ "tickers" → c ≠ "raw" →
          strEndsWith c "_at" = false → blankCell (getCell r c) = getCell r c →
          getCell r1 c = getCell r c) := by
  have hneN := normalizeBatch_isEmptyDF a.now df hne
  have hcleanB : (clean_df_drop_nulls (normalizeBatch a.now df) a.key_fields).1 =
      blankToNullDF (normalizeBatch a.now df) := by
    rw [clean_df_drop_nulls]
    simp only [hneN, Bool.false_eq_true, if_false]
    split
    · rfl
    · split <;> rfl
  have hbatch : (upsert_to_bq a (some df)).batch =
      some (blankToNullDF (normalizeBatch a.now df)) := by
    rcases hcl : clean_df_drop_nulls (normalizeBatch a.now df) a.key_fields with ⟨dfB, res⟩
    have hB : dfB = blankToNullDF (normalizeBatch a.now df) := by
      rw [← hcleanB, hcl]
    rcases res with e | dfF
    · rw [upsert_to_bq]
      simp [hk, hne, hcl, hB]
    · rw [upsert_to_bq]
      simp only [hk, Bool.false_eq_true, if_false, hne, hcl]
      split <;> simp [hB]
  refine ⟨blankToNullDF (normalizeBatch a.now df), hbatch, ?_, ?_, ?_⟩
  · show ((normalizeBatch a.now df).rows.map blankRow).length = df.rows.length
    rw [List.length_map, normalizeBatch_rows_length]
  · intro c hc
    show c ∈ (normalizeBatch a.now df).cols
    rw [normalizeBatch_cols]
    split
    · exact hc
    · exact List.mem_append.mpr (Or.inl hc)
  · intro i r r1 hr hr1 c hc1 hc2 hc3 hc4 hblank
    have hr1m : ((normalizeBatch a.now df).rows.map blankRow)[i]? = some r1 := hr1
    rw [List.getElem?_map] at hr1m
    rcases hN : (normalizeBatch a.now df).rows[i]? with _ | rN
    · rw [hN] at hr1m
      cases hr1m
    · rw [hN] at hr1m
      rw [Option.map_some'] at hr1m
      cases hr1m
      rw [getCell_blankRow,
        getCell_normalizeBatch_untouched a.now df c hc1 hc2 hc3 hc4 i r rN hr hN, hblank]

/-- C6, witness. -/
theorem upsert_mutation_frame_witness :
    ∃ b, (upsert_to_bq argsStrKey (some dfStrOnly)).batch = some b ∧
      b.rows.length = dfStrOnly.rows.length ∧
      (∀ c ∈ dfStrOnly.cols, c ∈ b.cols) ∧
      (∀ (i : Nat) (r r1 : Row), dfStrOnly.rows[i]? = some r → b.rows[i]? = some r1 →
        ∀ c, c ≠ "ingested_at" → c ≠ "tickers" → c ≠ "raw" →
          strEndsWith c "_at" = false → blankCell (getCell r c) = getCell r c →
          getCell r1 c = getCell r c) :=
  upsert_mutation_frame argsStrKey dfStrOnly (by decide) (by decide)

/-- C2, confirmed.  For a batch staging two rows with identical
key-column values and distinct recency instants, the merge keeps
exactly the later row: the dedup ranking — ordered by `ingested_at`
if usable, else `published_at`, else `created_at`, else the stable
key-column tie-break (`chooseOrder`) — ranks the later instant first
and keeps only the rank-1 row, and the merge writes exactly that
row's usable columns into the (here empty) target. -/
theorem upsert_recency_convergence (a : UpsertArgs) (df dfB dfF dfC : DF)
    (ts : List SchemaField) (s1 s2 : Row) (t1 t2 : Int)
    (hk : a.key_fields.isEmpty = false) (hne : df.isEmptyDF = false)
    (hclean : clean_df_drop_nulls (normalizeBatch a.now df) a.key_fields = (dfB, .ok dfF))
    (hF : dfF.rows.isEmpty = false)
    (hfetch : a.fetchSchema = .ok ts) (hco : coerceDF ts dfF = .ok dfC)
    (husable : (usableColsOf dfC.cols (ts.map (fun f => f.name))).isEmpty = false)
    (hmissing : (a.key_fields.filter
      (fun k => decide (k ∉ ts.map (fun f => f.name)))).isEmpty = true)
    (hrows : dfC.rows = [s1, s2])
    (hkeys : keyTuple a.key_fields s1 = keyTuple a.key_fields s2)
    (ht1 : recKey (chooseOrder (usableColsOf dfC.cols (ts.map (fun f => f.name)))) s1 = some t1)
    (ht2 : recKey (chooseOrder (usableColsOf dfC.cols (ts.map (fun f => f.name)))) s2 = some t2)
    (hlt : t1 < t2)
    (htarget : a.targetRows = []) :
    (upsert_to_bq a (some df)).status = .applied ∧
    (upsert_to_bq a (some df)).target =
      [insertRowOf (usableColsOf dfC.cols (ts.map (fun f => f.name))) s2] := by
  have hrun := upsert_to_bq_run a df dfB dfF hk hne hclean hF
  have happ := afterClean_applied a dfF dfC ts hfetch hco husable hmissing
  have hded : dedupRows a.key_fields
      (chooseOrder (usableColsOf dfC.cols (ts.map (fun f => f.name)))) dfC.rows = [s2] := by
    rw [hrows, dedupRows]
    have hmap : ([s1, s2] : List Row).map (keyTuple a.key_fields) =
        [keyTuple a.key_fields s1, keyTuple a.key_fields s1] := by
      rw [List.map_cons, List.map_cons, List.map_nil, ← hkeys]
    rw [hmap]
    have hfo : firstOccurrences
        [keyTuple a.key_fields s1, keyTuple a.key_fields s1] =
        [keyTuple a.key_fields s1] := by
      simp [firstOccurrences]
    rw [hfo]
    have hfilter : ([s1, s2] : List Row).filter
        (fun r => keyTuple a.key_fields r == keyTuple a.key_fields s1) = [s1, s2] := by
      simp [List.filter_cons, hkeys.symm]
    simp only [List.filterMap_cons, List.filterMap_nil, hfilter, pickLatest, List.foldl_cons,
      List.foldl_nil, ht1, ht2, beats]
    simp [hlt]
  constructor
  · rw [hrun, happ]
  · rw [hrun]
    show (afterClean a dfF).2.2.1 = _
    rw [happ]
    show mergeRows _ _ _ _ = _
    rw [hded, htarget, mergeRows]
    simp

/-- C2, witness: the spec's example scenario — two rows keyed "a",
amounts 12.5 and 13.0, recency instants 100 and 200; the target ends
with exactly the later row. -/
theorem upsert_recency_convergence_witness :
    (upsert_to_bq argsRecency (some dfRecency)).status = .applied ∧
    (upsert_to_bq argsRecency (some dfRecency)).target =
      [insertRowOf (usableColsOf ["id", "amount", "ingested_at"] ["id", "amount", "ingested_at"])
        [("id", Value.vstr "a"), ("amount", Value.vfloat ⟨130, 1⟩),
         ("ingested_at", Value.vtimestamp 200)]] :=
  upsert_recency_convergence argsRecency dfRecency
    ⟨["id", "amount", "ingested_at"],
     [[("id", .vstr "a"), ("amount", .vstr "12.5"), ("ingested_at", .vtimestamp 100)],
      [("id", .vstr "a"), ("amount", .vstr "13.0"), ("ingested_at", .vtimestamp 200)]]⟩
    ⟨["id", "amount", "ingested_at"],
     [[("id", .vstr "a"), ("amount", .vstr "12.5"), ("ingested_at", .vtimestamp 100)],
      [("id", .vstr "a"), ("amount", .vstr "13.0"), ("ingested_at", .vtimestamp 200)]]⟩
    ⟨["id", "amount", "ingested_at"],
     [[("id", .vstr "a"), ("amount", .vfloat ⟨125, 1⟩), ("ingested_at", .vtimestamp 100)],
      [("id", .vstr "a"), ("amount", .vfloat ⟨130, 1⟩), ("ingested_at", .vtimestamp 200)]]⟩
    [⟨"id", "STRING", none⟩, ⟨"amount", "FLOAT64", none⟩, ⟨"ingested_at", "TIMESTAMP", none⟩]
    [("id", Value.vstr "a"), ("amount", Value.vfloat ⟨125, 1⟩),
     ("ingested_at", Value.vtimestamp 100)]
    [("id", Value.vstr "a"), ("amount", Value.vfloat ⟨130, 1⟩),
     ("ingested_at", Value.vtimestamp 200)]
    100 200
    (by decide) (by decide) (by decide) (by decide) (by decide) (by decide) (by decide)
    (by decide) (by decide) (by decide) (by decide) (by decide) (by decide) (by decide)

/-! ## Lemmas toward idempotence -/

theorem blankCell_idem (v : Value) : blankCell (blankCell v) = blankCell v := by
  cases v with
  | vstr s =>
    rw [blankCell]
    split
    · rfl
    · rw [blankCell]
      split
      · rename_i h1 h2
        exact absurd h2 h1
      · rfl
  | _ => rfl

theorem blankRow_idem (r : Row) : blankRow (blankRow r) = blankRow r := by
  rw [blankRow, blankRow, List.map_map]
  refine List.map_congr_left ?_
  intro p _
  simp [Function.comp, blankCell_idem]

theorem blankToNullDF_idem (df : DF) :
    blankToNullDF (blankToNullDF df) = blankToNullDF df := by
  simp only [blankToNullDF, List.map_map]
  congr 1
  refine List.map_congr_left ?_
  intro r _
  simp [Function.comp, blankRow_idem]

theorem blankToNullDF_isEmptyDF (df : DF) (h : df.isEmptyDF = false) :
    (blankToNullDF df).isEmptyDF = false := by
  rw [DF.isEmptyDF] at h ⊢
  rcases Bool.or_eq_false_iff.mp h with ⟨h1, h2⟩
  rw [Bool.or_eq_false_iff]
  constructor
  · rcases hr : df.rows with _ | ⟨r, rest⟩
    · rw [hr] at h1; simp at h1
    · rw [blankToNullDF, hr]; rfl
  · exact h2

theorem hasEntry_blankRow (r : Row) (c : String) :
    hasEntry (blankRow r) c = hasEntry r c := by
  induction r with
  | nil => rfl
  | cons p r ih =>
    obtain ⟨pc, pv⟩ := p
    simp only [blankRow] at ih ⊢
    simp [hasEntry, ih]

theorem map_self_of_fixed {α : Type} (l : List α) (f : α → α)
    (h : ∀ x ∈ l, f x = x) : l.map f = l := by
  induction l with
  | nil => rfl
  | cons x l ih =>
    rw [List.map_cons, h x (List.mem_cons_self ..), ih (fun y hy => h y (List.mem_cons_of_mem _ hy))]

theorem foldl_self_of_fixed {α β : Type} (l : List β) (g : α → β → α) (r : α)
    (h : ∀ c ∈ l, g r c = r) : l.foldl g r = r := by
  induction l with
  | nil => rfl
  | cons c l ih =>
    rw [List.foldl_cons, h c (List.mem_cons_self ..),
      ih (fun c2 hc2 => h c2 (List.mem_cons_of_mem _ hc2))]

theorem find?_congr {α : Type} (l : List α) (p q : α → Bool)
    (h : ∀ x ∈ l, p x = q x) : l.find? p = l.find? q := by
  induction l with
  | nil => rfl
  | cons x l ih =>
    rw [List.find?, List.find?, h x (List.mem_cons_self ..)]
    split
    · rfl
    · exact ih (fun y hy => h y (List.mem_cons_of_mem _ hy))

theorem find?_unique {α : Type} (l : List α) (p : α → Bool) (s : α)
    (hs : s ∈ l) (hp : p s = true) (huniq : ∀ x ∈ l, p x = true → x = s) :
    l.find? p = some s := by
  induction l with
  | nil => simp at hs
  | cons x l ih =>
    rw [List.find?]
    by_cases hx : p x = true
    · rw [hx]
      rw [huniq x (List.mem_cons_self ..) hx]
    · rw [Bool.not_eq_true] at hx
      rw [hx]
      rcases List.mem_cons.mp hs with h1 | h1
      · subst h1
        rw [hp] at hx
        cases hx
      · exact ih h1 (fun y hy hpy => huniq y (List.mem_cons_of_mem _ hy) hpy)

theorem hasEntry_insertRowOf (usable : List String) (s : Row) (c : String)
    (h : c ∈ usable) : hasEntry (insertRowOf usable s) c = true := by
  induction usable with
  | nil => simp at h
  | cons c0 rest ih =>
    rw [insertRowOf, List.map_cons, hasEntry]
    by_cases hc : c0 = c
    · simp [hc]
    · have h1 : c ∈ rest := by
        rcases List.mem_cons.mp h with h1 | h1
        · exact absurd h1.symm hc
        · exact h1
      have := ih h1
      rw [insertRowOf] at this
      simp [hc, this]

theorem sqlEqV_self (v : Value) (h : v ≠ .vnull) : sqlEqV v v = true := by
  cases v <;> simp [sqlEqV] at h ⊢

theorem hasEntry_foldl_updateCell (L : List String) (g : Row → String → Value) (r : Row)
    (c : String) (h : hasEntry r c = true) :
    hasEntry (L.foldl (fun acc c0 => updateCell acc c0 (g acc c0)) r) c = true := by
  induction L generalizing r with
  | nil => exact h
  | cons c0 L ih =>
    rw [List.foldl_cons]
    exact ih _ (hasEntry_updateCell_of _ _ _ _ h)

theorem getCell_foldl_updateCell_gen_not_mem (L : List String) (g : Row → String → Value)
    (r : Row) (c : String) (h : c ∉ L) :
    getCell (L.foldl (fun acc c0 => updateCell acc c0 (g acc c0)) r) c = getCell r c := by
  induction L generalizing r with
  | nil => rfl
  | cons c0 L ih =>
    simp only [List.mem_cons, not_or] at h
    rw [List.foldl_cons, ih _ h.2, getCell_updateCell_ne _ _ _ _ h.1]

theorem foldl_coerce_ts_mem (L : List String) (r : Row) (c : String) (h : c ∈ L) :
    hasEntry (L.foldl (fun acc c0 => updateCell acc c0 (coerce_ts (getCell acc c0))) r) c = true ∧
    ∃ x, getCell (L.foldl (fun acc c0 => updateCell acc c0 (coerce_ts (getCell acc c0))) r) c =
      coerce_ts x := by
  induction L generalizing r with
  | nil => simp at h
  | cons c0 L ih =>
    rw [List.foldl_cons]
    by_cases hc : c ∈ L
    · exact ih _ hc
    · have hceq : c = c0 := by
        rcases List.mem_cons.mp h with h1 | h1
        · exact h1
        · exact absurd h1 hc
      subst hceq
      constructor
      · exact hasEntry_foldl_updateCell L _ _ c (hasEntry_updateCell_self _ _ _)
      · rw [getCell_foldl_updateCell_gen_not_mem L _ _ c hc, getCell_updateCell_self]
        exact ⟨_, rfl⟩

theorem getCell_updateNonKeys_mem (nonkeys : List String) (t s : Row) (c : String)
    (h : c ∈ nonkeys) :
    getCell (updateNonKeys nonkeys t s) c = getCell s c ∧
    hasEntry (updateNonKeys nonkeys t s) c = true := by
  induction nonkeys generalizing t with
  | nil => simp at h
  | cons c0 L ih =>
    rw [updateNonKeys, List.foldl_cons]
    by_cases hc : c ∈ L
    · exact ih _ hc
    · have hceq : c = c0 := by
        rcases List.mem_cons.mp h with h1 | h1
        · exact h1
        · exact absurd h1 hc
      subst hceq
      constructor
      · rw [getCell_foldl_updateCell_const_not_mem L _ _ c hc, getCell_updateCell_self]
      · exact hasEntry_foldl_updateCell L _ _ c (hasEntry_updateCell_self _ _ _)

theorem updateNonKeys_self (nonkeys : List String) (t s : Row)
    (hfix : ∀ c ∈ nonkeys, getCell t c = getCell s c ∧ hasEntry t c = true) :
    updateNonKeys nonkeys t s = t := by
  rw [updateNonKeys]
  refine foldl_self_of_fixed _ _ _ ?_
  intro c hc
  obtain ⟨h1, h2⟩ := hfix c hc
  rw [← h1]
  exact updateCell_same_of_hasEntry t c h2

theorem updateNonKeys_idem (nonkeys : List String) (t s : Row) :
    updateNonKeys nonkeys (updateNonKeys nonkeys t s) s = updateNonKeys nonkeys t s :=
  updateNonKeys_self nonkeys _ s (fun c hc =>
    ⟨(getCell_updateNonKeys_mem nonkeys t s c hc).1,
     (getCell_updateNonKeys_mem nonkeys t s c hc).2⟩)

theorem all_congr_bool {α : Type} (l : List α) (p q : α → Bool)
    (h : ∀ x ∈ l, p x = q x) : l.all p = l.all q := by
  induction l with
  | nil => rfl
  | cons x l ih =>
    rw [List.all_cons, List.all_cons, h x (List.mem_cons_self ..),
      ih (fun y hy => h y (List.mem_cons_of_mem _ hy))]

theorem sqlEqV_eq (a b : Value) (h : sqlEqV a b = true) : a = b := by
  cases a <;> cases b <;> simp [sqlEqV] at h <;> simp [h]

theorem rowMatches_updateNonKeys (keys nonkeys : List String) (t s r : Row)
    (hnk : ∀ k ∈ keys, k ∉ nonkeys) :
    rowMatches keys (updateNonKeys nonkeys t s) r = rowMatches keys t r := by
  rw [rowMatches, rowMatches]
  refine all_congr_bool _ _ _ ?_
  intro k hk
  rw [getCell_updateNonKeys_key nonkeys t s k (hnk k hk)]

theorem rowMatches_insertRowOf (keys usable : List String) (s r : Row)
    (hsub : ∀ k ∈ keys, k ∈ usable) :
    rowMatches keys (insertRowOf usable s) r = rowMatches keys s r := by
  rw [rowMatches, rowMatches]
  refine all_congr_bool _ _ _ ?_
  intro k hk
  rw [getCell_insertRowOf usable s k (hsub k hk)]

theorem rowMatches_self (keys : List String) (s : Row)
    (hnn : ∀ k ∈ keys, getCell s k ≠ .vnull) : rowMatches keys s s = true := by
  rw [rowMatches, List.all_eq_true]
  intro k hk
  exact sqlEqV_self _ (hnn k hk)

theorem rowMatches_keyTuple (keys : List String) (t s : Row)
    (h : rowMatches keys t s = true) : keyTuple keys t = keyTuple keys s := by
  rw [rowMatches, List.all_eq_true] at h
  rw [keyTuple, keyTuple]
  refine List.map_congr_left ?_
  intro k hk
  exact sqlEqV_eq _ _ (h k hk)

theorem dedupRows_keyTuple (keys : List String) (ord : OrderSpec) (rows : List Row) :
    ∀ s ∈ dedupRows keys ord rows,
      ∀ s2 ∈ dedupRows keys ord rows, keyTuple keys s = keyTuple keys s2 → s = s2 := by
  intro s1 hs1 s2 hs2 heq
  rw [dedupRows] at hs1 hs2
  obtain ⟨k1, hk1, hp1⟩ := List.mem_filterMap.mp hs1
  obtain ⟨k2, hk2, hp2⟩ := List.mem_filterMap.mp hs2
  have ht1 : keyTuple keys s1 = k1 := by
    have := pickLatest_mem _ _ _ hp1
    rw [List.mem_filter] at this
    exact eq_of_beq this.2
  have ht2 : keyTuple keys s2 = k2 := by
    have := pickLatest_mem _ _ _ hp2
    rw [List.mem_filter] at this
    exact eq_of_beq this.2
  have hk : k1 = k2 := by rw [← ht1, ← ht2, heq]
  rw [hk] at hp1
  rw [hp1] at hp2
  exact Option.some.inj hp2

theorem mergeRows_eq (keys usable : List String) (S T : List Row) :
    mergeRows keys usable S T =
      (if (usable.filter (fun c => decide (c ∉ keys))).isEmpty then T
       else T.map (fun t =>
         match S.find? (fun s => rowMatches keys t s) with
         | some s => updateNonKeys (usable.filter (fun c => decide (c ∉ keys))) t s
         | none => t)) ++
      (S.filter (fun s => !T.any (fun t => rowMatches keys t s))).map (insertRowOf usable) := rfl

/-- Every source row matches some row of the merged target: its
original match survives the update with its keys intact, or its own
inserted row matches it. -/
theorem mergeRows_any_matches (keys usable : List String) (S T : List Row)
    (hsub : ∀ k ∈ keys, k ∈ usable)
    (hnn : ∀ s ∈ S, ∀ k ∈ keys, getCell s k ≠ .vnull) :
    ∀ s ∈ S, (mergeRows keys usable S T).any (fun t => rowMatches keys t s) = true := by
  intro s hs
  rw [List.any_eq_true, mergeRows_eq]
  by_cases hm : T.any (fun t => rowMatches keys t s) = true
  · rw [List.any_eq_true] at hm
    obtain ⟨t, ht, hmatch⟩ := hm
    by_cases hnke : (usable.filter (fun c => decide (c ∉ keys))).isEmpty = true
    · refine ⟨t, ?_, hmatch⟩
      rw [List.mem_append, if_pos hnke]
      exact Or.inl ht
    · refine ⟨(fun t => match S.find? (fun s2 => rowMatches keys t s2) with
          | some s2 => updateNonKeys (usable.filter (fun c => decide (c ∉ keys))) t s2
          | none => t) t, ?_, ?_⟩
      · rw [List.mem_append, if_neg hnke]
        exact Or.inl (List.mem_map.mpr ⟨t, ht, rfl⟩)
      · rcases hfind : S.find? (fun s2 => rowMatches keys t s2) with _ | s2
        · simpa [hfind] using hmatch
        · simp only [hfind]
          rw [rowMatches_updateNonKeys keys _ t s2 s
            (fun k hk => key_not_mem_nonkeys usable keys k hk)]
          exact hmatch
  · refine ⟨insertRowOf usable s, ?_, ?_⟩
    · rw [List.mem_append]
      right
      refine List.mem_map.mpr ⟨s, List.mem_filter.mpr ⟨hs, ?_⟩, rfl⟩
      rw [Bool.not_eq_true] at hm
      rw [hm]
      rfl
    · rw [rowMatches_insertRowOf keys usable s s hsub]
      exact rowMatches_self keys s (hnn s hs)

/-- Merging the same deduplicated, non-null-keyed source twice is the
same as merging it once. -/
theorem mergeRows_idem (keys usable : List String) (S T : List Row)
    (hsub : ∀ k ∈ keys, k ∈ usable)
    (hnn : ∀ s ∈ S, ∀ k ∈ keys, getCell s k ≠ .vnull)
    (hdist : ∀ s1 ∈ S, ∀ s2 ∈ S, keyTuple keys s1 = keyTuple keys s2 → s1 = s2) :
    mergeRows keys usable S (mergeRows keys usable S T) = mergeRows keys usable S T := by
  have hany := mergeRows_any_matches keys usable S T hsub hnn
  have hins : (S.filter
      (fun s => !(mergeRows keys usable S T).any (fun t => rowMatches keys t s))).map
        (insertRowOf usable) = [] := by
    rw [List.map_eq_nil_iff]
    rw [List.filter_eq_nil_iff]
    intro s hs
    rw [hany s hs]
    simp
  conv_lhs => rw [mergeRows_eq]
  rw [hins, List.append_nil]
  by_cases hnke : (usable.filter (fun c => decide (c ∉ keys))).isEmpty = true
  · rw [if_pos hnke]
  · rw [if_neg hnke]
    refine map_self_of_fixed _ _ ?_
    intro t2 ht2
    rw [mergeRows_eq, List.mem_append] at ht2
    rcases ht2 with hup | hins2
    · rw [if_neg hnke] at hup
      obtain ⟨t, ht, he⟩ := List.mem_map.mp hup
      rcases hfind : S.find? (fun s2 => rowMatches keys t s2) with _ | s2
      · rw [hfind] at he
        simp only at he
        rw [← he]
        rw [hfind]
      · rw [hfind] at he
        simp only at he
        have hfind2 : S.find? (fun s2 => rowMatches keys t2 s2) = some s2 := by
          rw [← hfind]
          refine find?_congr _ _ _ ?_
          intro x _
          rw [← he]
          exact rowMatches_updateNonKeys keys _ t s2 x
            (fun k hk => key_not_mem_nonkeys usable keys k hk)
        rw [hfind2, ← he]
        exact updateNonKeys_idem _ t s2
    · obtain ⟨s, hsf, he⟩ := List.mem_map.mp hins2
      have hsS : s ∈ S := List.mem_of_mem_filter hsf
      have hfind2 : S.find? (fun s2 => rowMatches keys t2 s2) = some s := by
        have hcongr : ∀ x ∈ S, (rowMatches keys t2 x) = (rowMatches keys s x) := by
          intro x _
          rw [← he]
          exact rowMatches_insertRowOf keys usable s x hsub
        rw [find?_congr _ _ _ hcongr]
        refine find?_unique _ _ s hsS (rowMatches_self keys s (hnn s hsS)) ?_
        intro x hx hpx
        exact hdist x hx s hsS
          ((rowMatches_keyTuple keys s x hpx).symm)
      rw [hfind2, ← he]
      refine updateNonKeys_self _ _ _ ?_
      intro c hc
      have hcu : c ∈ usable := List.mem_of_mem_filter hc
      exact ⟨getCell_insertRowOf usable s c hcu, hasEntry_insertRowOf usable s c hcu⟩

theorem norm_tickers_isList (v : Value) : ∃ xs, norm_tickers v = .vlist xs := by
  cases v <;> exact ⟨_, rfl⟩

theorem to_json_text_shape (v : Value) :
    to_json_text v = .vnull ∨ ∃ s0, to_json_text v = .vstr s0 := by
  cases v
  case vnull => exact Or.inl rfl
  all_goals exact Or.inr ⟨_, rfl⟩

theorem mem_stamped_cols (now : Int) (df : DF) (c : String) (h : c ∈ df.cols) :
    c ∈ (if "ingested_at" ∈ df.cols then df
         else setCol df "ingested_at" (.vtimestamp now)).cols := by
  split
  · exact h
  · rw [setCol_cols_of_not_mem _ _ _ (by assumption)]
    exact List.mem_append.mpr (Or.inl h)

/-- After normalization, a `tickers` column cell is a string list
with an explicit entry. -/
theorem normalizeBatch_tickers_shape (now : Int) (df : DF) (h : "tickers" ∈ df.cols)
    (i : Nat) (rN : Row) (hN : (normalizeBatch now df).rows[i]? = some rN) :
    hasEntry rN "tickers" = true ∧ ∃ xs, getCell rN "tickers" = .vlist xs := by
  simp only [normalizeBatch, foldl_mapCol_rows] at hN
  set df1 := if "ingested_at" ∈ df.cols then df
    else setCol df "ingested_at" (.vtimestamp now) with hdf1
  have h1 : "tickers" ∈ df1.cols := by
    rw [hdf1]
    exact mem_stamped_cols now df "tickers" h
  rw [if_pos h1] at hN
  have hts : ∀ (cols : List String), "tickers" ∉ cols.filter
      (fun c0 => strEndsWith c0 "_at" && c0 != "ingested_at") :=
    fun cols => not_mem_tsFilter "tickers" (by decide) cols
  split at hN <;>
    (simp only [mapCol_rows, List.map_map, List.getElem?_map] at hN
     rcases h0 : df1.rows[i]? with _ | r0
     · rw [h0] at hN; cases hN
     · rw [h0, Option.map_some'] at hN
       cases hN
       simp only [Function.comp]
       constructor
       · refine hasEntry_foldl_updateCell _ _ _ _ ?_
         first
         | exact hasEntry_updateCell_of _ _ _ _ (hasEntry_updateCell_self _ _ _)
         | exact hasEntry_updateCell_self _ _ _
       · rw [getCell_foldl_updateCell_gen_not_mem _ _ _ _ (hts _)]
         first
         | rw [getCell_updateCell_ne _ _ _ _ (by decide), getCell_updateCell_self]
         | rw [getCell_updateCell_self]
         exact norm_tickers_isList _)

/-- After normalization, a `raw` column cell is null or serialized
text, with an explicit entry. -/
theorem normalizeBatch_raw_shape (now : Int) (df : DF) (h : "raw" ∈ df.cols)
    (i : Nat) (rN : Row) (hN : (normalizeBatch now df).rows[i]? = some rN) :
    hasEntry rN "raw" = true ∧
    (getCell rN "raw" = .vnull ∨ ∃ s0, getCell rN "raw" = .vstr s0) := by
  simp only [normalizeBatch, foldl_mapCol_rows] at hN
  set df1 := if "ingested_at" ∈ df.cols then df
    else setCol df "ingested_at" (.vtimestamp now) with hdf1
  have h1 : "raw" ∈ df1.cols := by
    rw [hdf1]
    exact mem_stamped_cols now df "raw" h
  have hts : ∀ (cols : List String), "raw" ∉ cols.filter
      (fun c0 => strEndsWith c0 "_at" && c0 != "ingested_at") :=
    fun cols => not_mem_tsFilter "raw" (by decide) cols
  split at hN <;>
    (try simp only [mapCol_cols] at hN
     try rw [if_pos h1] at hN
     simp only [mapCol_rows, List.map_map, List.getElem?_map] at hN
     rcases h0 : df1.rows[i]? with _ | r0
     · rw [h0] at hN; cases hN
     · rw [h0, Option.map_some'] at hN
       cases hN
       simp only [Function.comp]
       constructor
       · exact hasEntry_foldl_updateCell _ _ _ _ (hasEntry_updateCell_self _ _ _)
       · rw [getCell_foldl_updateCell_gen_not_mem _ _ _ _ (hts _), getCell_updateCell_self]
         exact to_json_text_shape _)

/-- After normalization, a non-`ingested_at` `*_at` column cell is
null or an instant, with an explicit entry. -/
theorem normalizeBatch_ts_shape (now : Int) (df : DF) (c : String)
    (hc1 : strEndsWith c "_at" = true) (hc2 : (c != "ingested_at") = true)
    (hc : c ∈ df.cols)
    (i : Nat) (rN : Row) (hN : (normalizeBatch now df).rows[i]? = some rN) :
    hasEntry rN c = true ∧
    (getCell rN c = .vnull ∨ ∃ t0, getCell rN c = .vtimestamp t0) := by
  simp only [normalizeBatch, foldl_mapCol_rows] at hN
  set df1 := if "ingested_at" ∈ df.cols then df
    else setCol df "ingested_at" (.vtimestamp now) with hdf1
  have h1 : c ∈ df1.cols := by
    rw [hdf1]
    exact mem_stamped_cols now df c hc
  split at hN <;> split at hN <;>
    (try simp only [mapCol_cols] at hN
     simp only [mapCol_rows, List.map_map, List.getElem?_map] at hN
     rcases h0 : df1.rows[i]? with _ | r0
     · rw [h0] at hN; cases hN
     · rw [h0, Option.map_some'] at hN
       cases hN
       try simp only [Function.comp]
       have hmem : c ∈ (List.filter (fun c0 => strEndsWith c0 "_at" && c0 != "ingested_at") _) :=
         List.mem_filter.mpr ⟨show c ∈ df1.cols from h1, by rw [hc1, hc2]; rfl⟩
       obtain ⟨hent, x, hx⟩ := foldl_coerce_ts_mem _ _ c hmem
       exact ⟨hent, by rw [hx]; exact coerce_ts_shape x⟩)

/-- Re-assigning a cell its own value leaves the row unchanged. -/
theorem updateCell_getCell_self (r : Row) (c : String) (h : hasEntry r c = true) :
    updateCell r c (getCell r c) = r := by
  induction r with
  | nil => simp [hasEntry] at h
  | cons p r ih =>
    obtain ⟨pc, pv⟩ := p
    by_cases hpc : pc = c
    · subst hpc
      simp [updateCell, getCell]
    · simp only [hasEntry, Bool.or_eq_true, decide_eq_true_eq] at h
      rcases h with h | h
      · exact absurd h hpc
      · simp [updateCell, getCell, hpc, ih h]

/-- `df[c] = df[c].apply(f)` is a no-op on a frame whose every row
already holds an `f`-fixed value in an explicit `c` entry. -/
theorem mapCol_self (df : DF) (c : String) (f : Value → Value)
    (h : ∀ r ∈ df.rows, hasEntry r c = true ∧ f (getCell r c) = getCell r c) :
    mapCol df c f = df := by
  have hrows : df.rows.map (fun r => updateCell r c (f (getCell r c))) = df.rows :=
    map_self_of_fixed _ _ (fun r hrr => by
      rw [(h r hrr).2]
      exact updateCell_getCell_self r c (h r hrr).1)
  simp only [mapCol, hrows]

/-- The in-place normalization is a fixed point on frames already in
normalized shape: `ingested_at` present, every `tickers` cell fixed by
`norm_tickers`, every `raw` cell fixed by `to_json_text`, and every
other `*_at` cell fixed by `coerce_ts`. -/
theorem normalizeBatch_fixed (now2 : Int) (B : DF)
    (ha : "ingested_at" ∈ B.cols)
    (ht : "tickers" ∈ B.cols → ∀ r ∈ B.rows,
      hasEntry r "tickers" = true ∧ norm_tickers (getCell r "tickers") = getCell r "tickers")
    (hr : "raw" ∈ B.cols → ∀ r ∈ B.rows,
      hasEntry r "raw" = true ∧ to_json_text (getCell r "raw") = getCell r "raw")
    (hts : ∀ c ∈ B.cols, strEndsWith c "_at" = true → (c != "ingested_at") = true →
      ∀ r ∈ B.rows, hasEntry r c = true ∧ coerce_ts (getCell r c) = getCell r c) :
    normalizeBatch now2 B = B := by
  simp only [normalizeBatch]
  rw [if_pos ha]
  have h2 : (if "tickers" ∈ B.cols then mapCol B "tickers" norm_tickers else B) = B := by
    split
    · exact mapCol_self _ _ _ (ht (by assumption))
    · rfl
  rw [h2]
  have h3 : (if "raw" ∈ B.cols then mapCol B "raw" to_json_text else B) = B := by
    split
    · exact mapCol_self _ _ _ (hr (by assumption))
    · rfl
  rw [h3]
  refine foldl_self_of_fixed _ _ _ (fun c hc => ?_)
  obtain ⟨hmem, hpred⟩ := List.mem_filter.mp hc
  rw [Bool.and_eq_true] at hpred
  exact mapCol_self _ _ _ (hts c hmem hpred.1 hpred.2)

/-- A batch column other than the stamp was already a column of the
pre-normalization frame. -/
theorem mem_normalizeBatch_cols_of_ne (now : Int) (df : DF) (c : String)
    (hne : c ≠ "ingested_at") (h : c ∈ (normalizeBatch now df).cols) : c ∈ df.cols := by
  rw [normalizeBatch_cols] at h
  split at h
  · exact h
  · rcases List.mem_append.mp h with h | h
    · exact h
    · exact absurd (List.mem_singleton.mp h) hne

/-- One upsert pass leaves the caller's batch in normalized shape:
re-normalizing the blank-stripped stamped frame at any later instant
is a no-op. -/
theorem normalizeBatch_renorm (now now2 : Int) (df : DF) :
    normalizeBatch now2 (blankToNullDF (normalizeBatch now df)) =
      blankToNullDF (normalizeBatch now df) := by
  refine normalizeBatch_fixed now2 _ ?_ ?_ ?_ ?_
  · show "ingested_at" ∈ (normalizeBatch now df).cols
    rw [normalizeBatch_cols]
    split
    · assumption
    · exact List.mem_append.mpr (Or.inr (List.mem_singleton.mpr rfl))
  · intro htk r1 hr1
    obtain ⟨r0, hr0, rfl⟩ := List.mem_map.mp hr1
    obtain ⟨i, hi⟩ := List.mem_iff_getElem?.mp hr0
    have hcol : "tickers" ∈ df.cols :=
      mem_normalizeBatch_cols_of_ne now df _ (by decide) htk
    obtain ⟨hent, xs, hxs⟩ := normalizeBatch_tickers_shape now df hcol i r0 hi
    refine ⟨by rw [hasEntry_blankRow]; exact hent, ?_⟩
    rw [getCell_blankRow, hxs]
    rfl
  · intro hrw r1 hr1
    obtain ⟨r0, hr0, rfl⟩ := List.mem_map.mp hr1
    obtain ⟨i, hi⟩ := List.mem_iff_getElem?.mp hr0
    have hcol : "raw" ∈ df.cols :=
      mem_normalizeBatch_cols_of_ne now df _ (by decide) hrw
    obtain ⟨hent, hv⟩ := normalizeBatch_raw_shape now df hcol i r0 hi
    refine ⟨by rw [hasEntry_blankRow]; exact hent, ?_⟩
    rw [getCell_blankRow]
    rcases hv with hv | ⟨s0, hv⟩
    · rw [hv]; rfl
    · rw [hv]
      simp only [blankCell]
      split <;> rfl
  · intro c hcB h1 h2 r1 hr1
    obtain ⟨r0, hr0, rfl⟩ := List.mem_map.mp hr1
    obtain ⟨i, hi⟩ := List.mem_iff_getElem?.mp hr0
    have hcol : c ∈ df.cols :=
      mem_normalizeBatch_cols_of_ne now df _ (by simpa using h2) hcB
    obtain ⟨hent, hv⟩ := normalizeBatch_ts_shape now df c h1 h2 hcol i r0 hi
    refine ⟨by rw [hasEntry_blankRow]; exact hent, ?_⟩
    rw [getCell_blankRow]
    rcases hv with hv | ⟨t0, hv⟩ <;> rw [hv] <;> rfl

/-- Forward run of `_clean_df_drop_nulls` on a nonempty frame with a
nonempty key list all of whose keys are columns. -/
theorem clean_run (dfN : DF) (req : List String)
    (hne : dfN.isEmptyDF = false) (hreq : req.isEmpty = false)
    (hkeys : ∀ k ∈ req, k ∈ dfN.cols) :
    clean_df_drop_nulls dfN req =
      (blankToNullDF dfN,
       .ok (dropNullSubset (dropAllNullRows (blankToNullDF dfN)) req)) := by
  rw [clean_df_drop_nulls]
  simp only [hne, hreq, Bool.false_eq_true, if_false]
  have hm : (req.filter (fun k => decide (k ∉ dfN.cols))).isEmpty = true := by
    rw [List.isEmpty_iff, List.filter_eq_nil_iff]
    intro k hkk
    simpa using hkeys k hkk
  rw [hm]
  simp only [if_true]

/-- C3: Running the upsert a second time on the caller's (mutated)
batch, against the target and staging state the first run produced,
leaves the target unchanged, provided every coerced staged row has
non-null values in all key columns.  The mutated batch renormalizes to
itself, the cleaning and coercion reproduce the same staged rows, and
the MERGE maps every rank-1 source row onto the target row the first
run already wrote.  (Without the non-null proviso the second run
re-inserts null-keyed rows — see the companion counterexample.) -/
theorem upsert_idempotent_nonnull_keys
    (a : UpsertArgs) (df : DF) (now2 : Int) (dfB dfF dfC : DF) (ts : List SchemaField)
    (hk : a.key_fields.isEmpty = false)
    (hne : df.isEmptyDF = false)
    (hclean : clean_df_drop_nulls (normalizeBatch a.now df) a.key_fields = (dfB, .ok dfF))
    (hF : dfF.rows.isEmpty = false)
    (hfetch : a.fetchSchema = .ok ts)
    (hco : coerceDF ts dfF = .ok dfC)
    (husable : (usableColsOf dfC.cols (ts.map (fun f => f.name))).isEmpty = false)
    (hmissing : (a.key_fields.filter
      (fun k => decide (k ∉ ts.map (fun f => f.name)))).isEmpty = true)
    (hnn : ∀ s ∈ dfC.rows, ∀ k ∈ a.key_fields, getCell s k ≠ .vnull) :
    (upsert_to_bq
      { a with targetRows := (upsert_to_bq a (some df)).target,
               stagingPrev := (upsert_to_bq a (some df)).staging,
               now := now2 }
      (upsert_to_bq a (some df)).batch).target =
    (upsert_to_bq a (some df)).target := by
  have hneN : (normalizeBatch a.now df).isEmptyDF = false :=
    normalizeBatch_isEmptyDF a.now df hne
  obtain ⟨hB, hFdef, hkeyscols, -⟩ :=
    clean_ok_facts (normalizeBatch a.now df) a.key_fields dfB dfF hk hneN hclean
  have hr1 := upsert_to_bq_run a df dfB dfF hk hne hclean hF
  have hAC1 := afterClean_applied a dfF dfC ts hfetch hco husable hmissing
  have hCcols : dfC.cols = dfF.cols :=
    (coerceDF_ok_facts ts dfF dfC hco (fun _ => True)
      (fun _ _ _ _ _ _ => trivial) (fun _ _ => trivial)).1
  have hFcols : dfF.cols = (normalizeBatch a.now df).cols := by rw [hFdef]; rfl
  have hktc : ∀ k ∈ a.key_fields, k ∈ ts.map (fun f => f.name) := by
    intro k hkk
    by_contra hno
    rw [List.isEmpty_iff] at hmissing
    have hmem : k ∈ a.key_fields.filter (fun k => decide (k ∉ ts.map (fun f => f.name))) :=
      List.mem_filter.mpr ⟨hkk, by simpa using hno⟩
    rw [hmissing] at hmem
    cases hmem
  have hsub : ∀ k ∈ a.key_fields, k ∈ usableColsOf dfC.cols (ts.map (fun f => f.name)) := by
    intro k hkk
    refine List.mem_filter.mpr ⟨?_, by simpa using hktc k hkk⟩
    rw [hCcols, hFcols]
    exact hkeyscols k hkk
  have hne2 : dfB.isEmptyDF = false := by
    rw [hB]
    exact blankToNullDF_isEmptyDF _ hneN
  have hBB : blankToNullDF dfB = dfB := by
    rw [hB]
    exact blankToNullDF_idem _
  have hren : normalizeBatch now2 dfB = dfB := by
    rw [hB]
    exact normalizeBatch_renorm a.now now2 df
  have hkeysB : ∀ k ∈ a.key_fields, k ∈ dfB.cols := by
    intro k hkk
    have hc : dfB.cols = (normalizeBatch a.now df).cols := by rw [hB]; rfl
    rw [hc]
    exact hkeyscols k hkk
  have hFdfB : dfF = dropNullSubset (dropAllNullRows dfB) a.key_fields := by
    rw [hB]
    exact hFdef
  have hclean2 : clean_df_drop_nulls (normalizeBatch now2 dfB) a.key_fields = (dfB, .ok dfF) := by
    rw [hren, clean_run dfB a.key_fields hne2 hk hkeysB, hBB, ← hFdfB]
  have hbatch : (upsert_to_bq a (some df)).batch = some dfB := by rw [hr1]
  have hstag : (upsert_to_bq a (some df)).staging = dfC.rows := by rw [hr1, hAC1]
  have htgt : (upsert_to_bq a (some df)).target =
      mergeRows a.key_fields (usableColsOf dfC.cols (ts.map (fun f => f.name)))
        (dedupRows a.key_fields
          (chooseOrder (usableColsOf dfC.cols (ts.map (fun f => f.name)))) dfC.rows)
        a.targetRows := by
    rw [hr1, hAC1]
  rw [hbatch, hstag, htgt]
  set T1 := mergeRows a.key_fields (usableColsOf dfC.cols (ts.map (fun f => f.name)))
      (dedupRows a.key_fields
        (chooseOrder (usableColsOf dfC.cols (ts.map (fun f => f.name)))) dfC.rows)
      a.targetRows with hT1def
  rw [upsert_to_bq_run
    { a with targetRows := T1, stagingPrev := dfC.rows, now := now2 }
    dfB dfB dfF hk hne2 hclean2 hF]
  rw [afterClean_applied
    { a with targetRows := T1, stagingPrev := dfC.rows, now := now2 }
    dfF dfC ts hfetch hco husable hmissing]
  show mergeRows a.key_fields (usableColsOf dfC.cols (ts.map (fun f => f.name)))
      (dedupRows a.key_fields
        (chooseOrder (usableColsOf dfC.cols (ts.map (fun f => f.name)))) dfC.rows)
      T1 = T1
  rw [hT1def]
  exact mergeRows_idem a.key_fields (usableColsOf dfC.cols (ts.map (fun f => f.name)))
    (dedupRows a.key_fields
      (chooseOrder (usableColsOf dfC.cols (ts.map (fun f => f.name)))) dfC.rows)
    a.targetRows hsub
    (fun s hs k hkk => hnn s (dedupRows_subset _ _ _ s hs) k hkk)
    (dedupRows_keyTuple _ _ _)

/-- A second upsert of the mutated one-row STRING-keyed batch against
the first run's output leaves the target as it was. -/
theorem upsert_idempotent_nonnull_keys_witness :
    (upsert_to_bq
      { argsStrKey with targetRows := (upsert_to_bq argsStrKey (some dfStrOnly)).target,
                        stagingPrev := (upsert_to_bq argsStrKey (some dfStrOnly)).staging,
                        now := 5 }
      (upsert_to_bq argsStrKey (some dfStrOnly)).batch).target =
    (upsert_to_bq argsStrKey (some dfStrOnly)).target :=
  upsert_idempotent_nonnull_keys argsStrKey dfStrOnly 5
    ⟨["id", "ingested_at"], [[("id", .vstr "a"), ("ingested_at", .vtimestamp 0)]]⟩
    ⟨["id", "ingested_at"], [[("id", .vstr "a"), ("ingested_at", .vtimestamp 0)]]⟩
    ⟨["id", "ingested_at"], [[("id", .vstr "a"), ("ingested_at", .vtimestamp 0)]]⟩
    [⟨"id", "STRING", none⟩]
    (by decide) (by decide) (by decide) (by decide) rfl (by decide) (by decide)
    (by decide) (by decide)
